import Mathlib

/-!
# bitbucket-runner: pipeline model, validation, selection and execution state

A shallow embedding of `internal/models/pipeline.go`, of
`internal/models/execution.go`, of the validation and lookup part of
`internal/models/config.go` and of `PipelineParser.ParseYAML` from
`internal/parser/pipeline.go`.

Modelling conventions

* A Go pointer `*T` is `Option T`; `none` is the nil pointer.
* `Pipeline` (`[]StepWrapper`) is `Option (List StepWrapper)`: `none` is the nil
  slice, `some []` the present-but-empty slice. `Validate` tells the two apart.
* The other slices (`[]string`) are only ever measured with `len`, so they are
  plain lists.
* A Go `map[string]V` is `Option (List (String × V))`: `none` is the nil map,
  and the list holds the entries in the order in which a `range` loop
  enumerates them. Go leaves that order unspecified, so another enumeration
  order of the same map is a permutation of the list. Keys of a map are
  pairwise distinct (`GoMap.WF`).
* A Go `error` result is `Except String Unit`, the string being `err.Error()`.
* A Go `int` is an `Int` of the 64-bit two's complement range; arithmetic on
  it wraps (`intWrap`), as the language defines it.
* A method with a pointer receiver returns the receiver after the call. A
  method that can end in a run-time panic returns `Except String _`, the
  string naming the panic.
* `time.Time` is an `Int`, an instant counted in nanoseconds; each call of
  `time.Now()` is an argument `now` of the method that makes it. A
  `time.Duration` is an `Int` of the 64-bit range, and `Time.Sub` clamps the
  difference of two instants to that range, as its documentation says.
-/

set_option autoImplicit false

/-- Equality of two `error` results is decidable. -/
instance instDecidableEqExcept {ε α : Type} [DecidableEq ε] [DecidableEq α] :
    DecidableEq (Except ε α)
  | .ok a, .ok b => if h : a = b then isTrue (by rw [h]) else isFalse (by intro h2; cases h2; exact h rfl)
  | .error a, .error b => if h : a = b then isTrue (by rw [h]) else isFalse (by intro h2; cases h2; exact h rfl)
  | .ok _, .error _ => isFalse (by intro h; cases h)
  | .error _, .ok _ => isFalse (by intro h; cases h)

namespace Models

/-- CloneConfig represents clone configuration. -/
structure CloneConfig where
  Enabled : Bool
  Depth : Int
  Lfs : Bool
deriving DecidableEq, Repr

/-- Artifacts represents artifacts configuration. -/
structure Artifacts where
  Paths : List String
deriving DecidableEq, Repr

/-- Changesets represents changeset conditions. -/
structure Changesets where
  IncludePaths : List String
deriving DecidableEq, Repr

/-- Condition represents step execution condition. -/
structure Condition where
  Changesets : Option Changesets
deriving DecidableEq, Repr

/-- Options represents pipeline options. -/
structure Options where
  Docker : Bool
  Size : String
deriving DecidableEq, Repr

/-- A Go `map[string]V`: `none` is the nil map, the list is the enumeration. -/
abbrev GoMap (V : Type) := Option (List (String × V))

namespace GoMap

variable {V : Type}

/-- The entries a `range` loop visits, in the order it visits them. -/
def entries : GoMap V → List (String × V)
  | none => []
  | some l => l

/-- Go's `len` on a map. -/
def len (m : GoMap V) : Nat := m.entries.length

/-- Go's two-valued index expression `v, ok := m[k]`. -/
def lookup (m : GoMap V) (k : String) : Option V :=
  (m.entries.find? (fun e => e.1 == k)).map Prod.snd

/-- Keys of a map are pairwise distinct. -/
def WF (m : GoMap V) : Prop := (m.entries.map Prod.fst).Nodup

/-- Two enumerations of one and the same map. -/
def SameMap (m m' : GoMap V) : Prop :=
  m.isSome = m'.isSome ∧ m.entries.Perm m'.entries

end GoMap

/-- Service represents a service definition. -/
structure Service where
  Image : String
  Environment : GoMap String
  Ports : List String
deriving DecidableEq, Repr

/-- Cache represents a cache definition. -/
structure Cache where
  Key : String
  Paths : List String
  Path : String
deriving DecidableEq, Repr

/-- Definitions represents pipeline definitions. -/
structure Definitions where
  Services : GoMap Service
  Caches : GoMap Cache
deriving DecidableEq, Repr

/-- Step represents a single step in a pipeline. -/
structure Step where
  Name : String
  Image : String
  Script : List String
  Services : List String
  Artifacts : Option Artifacts
  Caches : List String
  AfterScript : List String
  Condition : Option Condition
  Environment : GoMap String
deriving DecidableEq, Repr

/-- StepWrapper wraps a Step to handle the YAML structure. -/
structure StepWrapper where
  Step : Step
deriving DecidableEq, Repr

/-- Pipeline is `[]StepWrapper`; `none` is the nil slice. -/
abbrev Pipeline := Option (List StepWrapper)

/-- Go's `len` on a pipeline: the nil slice has length 0. -/
def Pipeline.len : Pipeline → Nat
  | none => 0
  | some l => l.length

/-- The elements a `range` loop over the slice visits. -/
def Pipeline.steps : Pipeline → List StepWrapper
  | none => []
  | some l => l

/-- Pipelines represents the pipelines section. -/
structure Pipelines where
  Default : Pipeline
  Branches : GoMap Pipeline
  PullRequests : GoMap Pipeline
  Custom : GoMap Pipeline
  Tags : GoMap Pipeline
deriving DecidableEq, Repr

/-- PipelineConfig represents the parsed bitbucket-pipelines.yml structure. -/
structure PipelineConfig where
  Image : String
  Clone : Option CloneConfig
  Pipelines : Option Pipelines
  Definitions : Option Definitions
  Options : Option Options
deriving DecidableEq, Repr

namespace PipelineConfig

/-- The `for i, stepWrapper := range pipeline` loop of `validatePipeline`,
entered at index `i` with the steps from `i` on still to visit. -/
def scriptLoop (name : String) : Nat → List StepWrapper → Except String Unit
  | _, [] => .ok ()
  | i, stepWrapper :: rest =>
    if stepWrapper.Step.Script.length = 0 then
      .error ("step " ++ toString (i + 1) ++ " in pipeline '" ++ name ++ "' has no script defined")
    else
      scriptLoop name (i + 1) rest

/-- The method `validatePipeline`. -/
def validatePipeline (_pc : PipelineConfig) (name : String) (pipeline : Pipeline) :
    Except String Unit :=
  if pipeline.len = 0 then
    .error ("pipeline '" ++ name ++ "' has no steps defined")
  else
    scriptLoop name 0 pipeline.steps

/-- One of the four `for name, pipeline := range ...` loops of `Validate`;
`qualifier` is the text before `%s` in the loop's format string. -/
def rangeValidate (pc : PipelineConfig) (qualifier : String) :
    List (String × Pipeline) → Except String Unit
  | [] => .ok ()
  | (name, pipeline) :: rest =>
    match pc.validatePipeline (qualifier ++ name) pipeline with
    | .error err => .error err
    | .ok _ => rangeValidate pc qualifier rest

/-- The default-pipeline block of `Validate`. -/
def validateDefault (pc : PipelineConfig) (p : Models.Pipelines) : Except String Unit :=
  if p.Default.len > 0 then
    pc.validatePipeline "default" p.Default
  else if p.Default.isSome then
    .error "pipeline 'default' has no steps defined"
  else
    .ok ()

/-- Validate validates the pipeline configuration. -/
def Validate (pc : PipelineConfig) : Except String Unit :=
  match pc.Pipelines with
  | none => .error "no pipelines defined"
  | some p =>
    match pc.validateDefault p with
    | .error err => .error err
    | .ok _ =>
    match pc.rangeValidate "branches." p.Branches.entries with
    | .error err => .error err
    | .ok _ =>
    match pc.rangeValidate "pull-requests." p.PullRequests.entries with
    | .error err => .error err
    | .ok _ =>
    match pc.rangeValidate "custom." p.Custom.entries with
    | .error err => .error err
    | .ok _ =>
    match pc.rangeValidate "tags." p.Tags.entries with
    | .error err => .error err
    | .ok _ =>
    if p.Default.len = 0 ∧ p.Branches.len = 0 ∧ p.PullRequests.len = 0 ∧
        p.Custom.len = 0 ∧ p.Tags.len = 0 then
      .error "no pipelines defined"
    else
      .ok ()

/-- GetDefaultPipeline returns the default pipeline if it exists. The pointer
result is `some` of the pipeline pointed to, `none` for nil. -/
def GetDefaultPipeline (pc : PipelineConfig) : Option Pipeline × Bool :=
  match pc.Pipelines with
  | none => (none, false)
  | some p =>
    if p.Default.len = 0 then (none, false)
    else (some p.Default, true)

/-- GetBranchPipeline returns the pipeline for a specific branch. -/
def GetBranchPipeline (pc : PipelineConfig) (branch : String) : Option Pipeline × Bool :=
  match pc.Pipelines with
  | none => (none, false)
  | some p =>
    if p.Branches.isNone then (none, false)
    else
      match p.Branches.lookup branch with
      | none => (none, false)
      | some pipeline => (some pipeline, true)

end PipelineConfig

end Models

namespace Parser

open Models

/-- ParseYAML parses YAML data and returns a PipelineConfig. `unmarshal` is
`yaml.Unmarshal` into a zero-valued `PipelineConfig`, taken as given. -/
def ParseYAML (unmarshal : List UInt8 → Except String PipelineConfig) (data : List UInt8) :
    Except String PipelineConfig :=
  match unmarshal data with
  | .error err => .error ("failed to unmarshal YAML: " ++ err)
  | .ok config =>
    match config.Validate with
    | .error err => .error ("invalid pipeline configuration: " ++ err)
    | .ok _ => .ok config

end Parser

namespace Models

open PipelineConfig

/-- A pipeline that passes the checks of `validatePipeline`: it has at least
one step and every one of its steps has at least one script entry. -/
def Pipeline.WellFormed (pl : Pipeline) : Prop :=
  0 < pl.len ∧ ∀ sw ∈ pl.steps, sw.Step.Script ≠ []

instance instDecidableWellFormed (pl : Pipeline) : Decidable pl.WellFormed :=
  inferInstanceAs (Decidable (0 < pl.len ∧ ∀ sw ∈ pl.steps, sw.Step.Script ≠ []))

/-- Every pipeline that `Validate` checks, under the name it is reported
with, in the order of the source text: the default pipeline when it is not
nil, then the entries of the branches, pull-requests, custom and tags maps as
enumerated. -/
def Pipelines.checked (p : Pipelines) : List (String × Pipeline) :=
  (match p.Default with
    | none => []
    | some l => [("default", some l)])
  ++ p.Branches.entries.map (fun e => ("branches." ++ e.1, e.2))
  ++ p.PullRequests.entries.map (fun e => ("pull-requests." ++ e.1, e.2))
  ++ p.Custom.entries.map (fun e => ("custom." ++ e.1, e.2))
  ++ p.Tags.entries.map (fun e => ("tags." ++ e.1, e.2))

/-- The four channels that are maps from a key to a pipeline. -/
inductive MapChannel where
  | branches
  | pullRequests
  | custom
  | tags
deriving DecidableEq, Repr

/-- The text that precedes the key in the qualified name of an entry. -/
def MapChannel.qualifier : MapChannel → String
  | .branches => "branches."
  | .pullRequests => "pull-requests."
  | .custom => "custom."
  | .tags => "tags."

/-- The map that holds the entries of a channel. -/
def Pipelines.channel (p : Pipelines) : MapChannel → GoMap Pipeline
  | .branches => p.Branches
  | .pullRequests => p.PullRequests
  | .custom => p.Custom
  | .tags => p.Tags

/-- The number of entries of a map whose pipeline is not well-formed. -/
def invalidCount (m : GoMap Pipeline) : Nat :=
  (m.entries.filter (fun e => decide (¬ e.2.WellFormed))).length

/-- The first map, in the order branches, pull-requests, custom, tags, that
holds an entry that is not well-formed holds only one such entry. -/
def Pipelines.SingleReport (p : Pipelines) : Prop :=
  invalidCount p.Branches ≤ 1 ∧ (invalidCount p.Branches = 0 →
  invalidCount p.PullRequests ≤ 1 ∧ (invalidCount p.PullRequests = 0 →
  invalidCount p.Custom ≤ 1 ∧ (invalidCount p.Custom = 0 →
  invalidCount p.Tags ≤ 1)))

/-- The same pipelines section under another enumeration of its maps. -/
def Pipelines.Reorder (p p' : Pipelines) : Prop :=
  p.Default = p'.Default ∧ p.Branches.SameMap p'.Branches ∧
  p.PullRequests.SameMap p'.PullRequests ∧ p.Custom.SameMap p'.Custom ∧
  p.Tags.SameMap p'.Tags

/-- The same document under another enumeration of the maps of its pipelines
section; every other field is unchanged. -/
def PipelineConfig.Reorder (pc pc' : PipelineConfig) : Prop :=
  pc.Image = pc'.Image ∧ pc.Clone = pc'.Clone ∧ pc.Definitions = pc'.Definitions ∧
  pc.Options = pc'.Options ∧
  match pc.Pipelines, pc'.Pipelines with
  | none, none => True
  | some p, some p' => p.Reorder p'
  | _, _ => False

/-- The keys of each of the four maps are pairwise distinct. -/
def Pipelines.WF (p : Pipelines) : Prop :=
  p.Branches.WF ∧ p.PullRequests.WF ∧ p.Custom.WF ∧ p.Tags.WF

/-- A step with only a script. -/
def mkStep (script : List String) : StepWrapper :=
  ⟨⟨"", "", script, [], none, [], [], none, none⟩⟩

/-- A config holding only a pipelines section. -/
def mkConfig (p : Option Pipelines) : PipelineConfig :=
  ⟨"", none, p, none, none⟩

/-- A document whose branches map holds two entries without steps, `a`
enumerated before `b`. -/
def orderAB : PipelineConfig :=
  mkConfig (some ⟨none, some [("a", some []), ("b", some [])], none, none, none⟩)

/-- The document `orderAB` with `b` enumerated before `a`. -/
def orderBA : PipelineConfig :=
  mkConfig (some ⟨none, some [("b", some []), ("a", some [])], none, none, none⟩)

/-- A document whose branches map holds one well-formed entry `a` and one
entry `b` without steps, `a` enumerated first. -/
def singleAB : PipelineConfig :=
  mkConfig (some ⟨none, some [("a", some [mkStep ["make"]]), ("b", some [])], none, none, none⟩)

/-- The document `singleAB` with `b` enumerated before `a`. -/
def singleBA : PipelineConfig :=
  mkConfig (some ⟨none, some [("b", some []), ("a", some [mkStep ["make"]])], none, none, none⟩)

/-- A document with the branches `main` and `main-dev`. -/
def twoBranches : PipelineConfig :=
  mkConfig (some ⟨none,
    some [("main-dev", some [mkStep ["make dev"]]), ("main", some [mkStep ["make"]])],
    none, none, none⟩)

/-- A decoder that reads every input as `pipelines: {}`. -/
def decodeEmptyGroup : List UInt8 → Except String PipelineConfig :=
  fun _ => .ok (mkConfig (some ⟨none, none, none, none, none⟩))

/-! ## Cache decoding -/

/-- The zero value of `Cache`, a receiver nothing has been decoded into. -/
def Cache.zero : Cache := ⟨"", [], ""⟩

/-- UnmarshalYAML implements custom unmarshaling for Cache. The closure
`unmarshal` of the YAML library is given by its two results on the value at
hand: `unmarshalString` for `unmarshal(&str)` and `unmarshalStruct` for
`unmarshal(&cache)` into a zero `cacheAlias`. The result is the error returned
and the receiver after the call. -/
def Cache.UnmarshalYAML (c : Cache) (unmarshalString : Except String String)
    (unmarshalStruct : Except String Cache) : Except String Unit × Cache :=
  match unmarshalString with
  | .ok str => (.ok (), { c with Path := str })
  | .error _ =>
    match unmarshalStruct with
    | .error err => (.error err, c)
    | .ok cache =>
      (.ok (), { c with Key := cache.Key, Paths := cache.Paths, Path := cache.Path })

/-- Exactly one of the two representations of a cache is populated: the path
alone, or key and paths without a path. -/
def Cache.ExactlyOne (c : Cache) : Prop :=
  (c.Path ≠ "" ∧ c.Key = "" ∧ c.Paths = []) ∨ ((c.Key ≠ "" ∨ c.Paths ≠ []) ∧ c.Path = "")

instance instDecidableExactlyOne (c : Cache) : Decidable c.ExactlyOne :=
  inferInstanceAs (Decidable
    ((c.Path ≠ "" ∧ c.Key = "" ∧ c.Paths = []) ∨ ((c.Key ≠ "" ∨ c.Paths ≠ []) ∧ c.Path = "")))

/-! ## Execution state -/

/-- An instant of `time.Time`, in nanoseconds. -/
abbrev Time := Int

/-- The value of a Go `int` expression whose exact result is `x`. -/
def intWrap (x : Int) : Int := (x + 2 ^ 63) % 2 ^ 64 - 2 ^ 63

/-- The largest `int`. -/
def maxInt : Int := 2 ^ 63 - 1

/-- The smallest `int`. -/
def minInt : Int := -(2 ^ 63)

/-- An index expression `l[i]` on a slice; it panics out of range. -/
def goIndex {α : Type} (l : List α) (i : Int) : Except String α :=
  if i < 0 then .error "index out of range"
  else
    match l[i.toNat]? with
    | some x => .ok x
    | none => .error "index out of range"

/-- ExecutionStatus represents the overall execution status. -/
abbrev ExecutionStatus := String

def ExecutionStatusPending : ExecutionStatus := "pending"

def ExecutionStatusRunning : ExecutionStatus := "running"

def ExecutionStatusCompleted : ExecutionStatus := "completed"

def ExecutionStatusFailed : ExecutionStatus := "failed"

def ExecutionStatusCancelled : ExecutionStatus := "cancelled"

/-- StepStatus represents the status of a single step. -/
abbrev StepStatus := String

def StepStatusPending : StepStatus := "pending"

def StepStatusRunning : StepStatus := "running"

def StepStatusCompleted : StepStatus := "completed"

def StepStatusFailed : StepStatus := "failed"

def StepStatusSkipped : StepStatus := "skipped"

/-- StepResult represents the result of a single step execution. -/
structure StepResult where
  StepIndex : Int
  StepName : String
  Status : StepStatus
  StartTime : Time
  EndTime : Option Time
  ExitCode : Int
  Output : String
  ErrorOutput : String
  Duration : Int
deriving DecidableEq, Repr

/-- ExecutionContext tracks execution state and runtime information. -/
structure ExecutionContext where
  PipelineConfig : Option Models.PipelineConfig
  CurrentStep : Int
  StepResults : List StepResult
  Environment : GoMap String
  WorkingDir : String
  StartTime : Time
  EndTime : Option Time
  Status : ExecutionStatus
  ErrorMessage : String
deriving DecidableEq, Repr

/-- NewExecutionContext creates a new execution context. -/
def NewExecutionContext (config : Option PipelineConfig) (workingDir : String) (now : Time) :
    ExecutionContext :=
  { PipelineConfig := config
    CurrentStep := 0
    StepResults := []
    Environment := some []
    WorkingDir := workingDir
    StartTime := now
    EndTime := none
    Status := ExecutionStatusPending
    ErrorMessage := "" }

/-- The assignment `m[key] = value` on the entries of a non-nil map: the value
of an existing key is replaced in place, a new key is added. -/
def assignEntry (l : List (String × String)) (key value : String) : List (String × String) :=
  if l.any (fun e => e.1 == key) then
    l.map (fun e => if e.1 == key then (key, value) else e)
  else
    l ++ [(key, value)]

namespace ExecutionContext

/-- StartExecution marks the execution as started. -/
def StartExecution (ec : ExecutionContext) (now : Time) : ExecutionContext :=
  { ec with Status := ExecutionStatusRunning, StartTime := now }

/-- CompleteExecution marks the execution as completed. -/
def CompleteExecution (ec : ExecutionContext) (now : Time) : ExecutionContext :=
  { ec with EndTime := some now, Status := ExecutionStatusCompleted }

/-- FailExecution marks the execution as failed. -/
def FailExecution (ec : ExecutionContext) (errorMsg : String) (now : Time) : ExecutionContext :=
  { ec with EndTime := some now, Status := ExecutionStatusFailed, ErrorMessage := errorMsg }

/-- AddStepResult adds a step result to the execution context. -/
def AddStepResult (ec : ExecutionContext) (result : StepResult) : ExecutionContext :=
  { ec with StepResults := ec.StepResults ++ [result] }

/-- GetCurrentStep returns the current step being executed; `none` is the nil
pointer. -/
def GetCurrentStep (ec : ExecutionContext) : Except String (Option Step) :=
  match ec.PipelineConfig with
  | none => .ok none
  | some pc =>
    match pc.GetDefaultPipeline with
    | (_, false) => .ok none
    | (none, true) => .error "nil pointer dereference"
    | (some pipeline, true) =>
      if ec.CurrentStep ≥ (pipeline.len : Int) then .ok none
      else
        match goIndex pipeline.steps ec.CurrentStep with
        | .error err => .error err
        | .ok stepWrapper => .ok (some stepWrapper.Step)

/-- NextStep advances to the next step. -/
def NextStep (ec : ExecutionContext) : ExecutionContext :=
  { ec with CurrentStep := intWrap (ec.CurrentStep + 1) }

/-- IsCompleted returns true if all steps have been executed. -/
def IsCompleted (ec : ExecutionContext) : Except String Bool :=
  match ec.PipelineConfig with
  | none => .ok true
  | some pc =>
    match pc.GetDefaultPipeline with
    | (_, false) => .ok true
    | (none, true) => .error "nil pointer dereference"
    | (some pipeline, true) => .ok (decide (ec.CurrentStep ≥ (pipeline.len : Int)))

/-- SetEnvironmentVariable sets an environment variable. -/
def SetEnvironmentVariable (ec : ExecutionContext) (key value : String) :
    Except String ExecutionContext :=
  match ec.Environment with
  | none => .error "assignment to entry in nil map"
  | some l => .ok { ec with Environment := some (assignEntry l key value) }

end ExecutionContext

/-- A document whose default pipeline has the two steps `build` and `test`. -/
def twoSteps : PipelineConfig :=
  mkConfig (some ⟨some [mkStep ["build"], mkStep ["test"]], none, none, none, none⟩)

/-- A context, bound to no document, whose execution has completed. -/
def completedContext : ExecutionContext :=
  (NewExecutionContext none "" 0).CompleteExecution 5

/-- A context whose cursor is the largest `int`. -/
def lastCursor : ExecutionContext :=
  { NewExecutionContext (some twoSteps) "" 0 with CurrentStep := maxInt }

/-- The library method `t.Sub(u)` of `time.Time`: the duration `t - u`, or
the largest or smallest `time.Duration` when the difference does not fit. -/
def timeSub (t u : Time) : Int :=
  if t - u > maxInt then maxInt
  else if t - u < minInt then minInt
  else t - u

namespace ExecutionContext

/-- GetTotalDuration returns the total execution duration; `now` is the
reading of `time.Now()` inside `time.Since`. -/
def GetTotalDuration (ec : ExecutionContext) (now : Time) : Int :=
  match ec.EndTime with
  | none => timeSub now ec.StartTime
  | some endTime => timeSub endTime ec.StartTime

/-- GetEnvironmentVariable gets an environment variable. -/
def GetEnvironmentVariable (ec : ExecutionContext) (key : String) : String × Bool :=
  match ec.Environment.lookup key with
  | some value => (value, true)
  | none => ("", false)

end ExecutionContext

/-- The calls that drive a context: the six mutating methods with their
arguments and clock readings. -/
inductive Operation where
  | start (now : Time)
  | complete (now : Time)
  | fail (errorMsg : String) (now : Time)
  | addResult (result : StepResult)
  | next
  | setEnv (key value : String)
deriving DecidableEq, Repr

/-- The context after one call, or the panic the call ends in. -/
def Operation.apply (op : Operation) (ec : ExecutionContext) : Except String ExecutionContext :=
  match op with
  | .start now => .ok (ec.StartExecution now)
  | .complete now => .ok (ec.CompleteExecution now)
  | .fail errorMsg now => .ok (ec.FailExecution errorMsg now)
  | .addResult result => .ok (ec.AddStepResult result)
  | .next => .ok ec.NextStep
  | .setEnv key value => ec.SetEnvironmentVariable key value

/-- The context after a sequence of calls, made from left to right. -/
def runOperations : List Operation → ExecutionContext → Except String ExecutionContext
  | [], ec => .ok ec
  | op :: rest, ec =>
    match op.apply ec with
    | .error err => .error err
    | .ok ec' => runOperations rest ec'

/-- The number of `NextStep` calls in a sequence of calls. -/
def nextCalls (ops : List Operation) : Nat :=
  (ops.filter (fun op => decide (op = Operation.next))).length

/-- One round of the driver: the result of the current step is recorded, then
the cursor is advanced. -/
def driveRound (ec : ExecutionContext) (result : StepResult) : ExecutionContext :=
  (ec.AddStepResult result).NextStep

/-- The rounds of the driver for the results `results`, in order. -/
def driveRounds (ec : ExecutionContext) (results : List StepResult) : ExecutionContext :=
  results.foldl driveRound ec

/-- The pipelines of the channel with the number `i`, in the order default
(0), branches (1), pull-requests (2), custom (3), tags (4), each under the
name it is reported with. -/
def Pipelines.checkedIn (p : Pipelines) : Nat → List (String × Pipeline)
  | 0 =>
    match p.Default with
    | none => []
    | some l => [("default", some l)]
  | 1 => p.Branches.entries.map (fun e => ("branches." ++ e.1, e.2))
  | 2 => p.PullRequests.entries.map (fun e => ("pull-requests." ++ e.1, e.2))
  | 3 => p.Custom.entries.map (fun e => ("custom." ++ e.1, e.2))
  | 4 => p.Tags.entries.map (fun e => ("tags." ++ e.1, e.2))
  | _ => []

/-! ## Runner configuration -/

/-- VolumeMount represents a volume mount configuration. -/
structure VolumeMount where
  Host : String
  Container : String
  ReadOnly : Bool
deriving DecidableEq, Repr

/-- PortMapping represents a port mapping configuration. -/
structure PortMapping where
  Host : Int
  Container : Int
  Protocol : String
deriving DecidableEq, Repr

/-- StepType represents configuration for a specific step type. -/
structure StepType where
  Image : String
  Environment : GoMap String
  Volumes : List VolumeMount
  Ports : List PortMapping
  Timeout : Int
deriving DecidableEq, Repr

/-- DefaultConfig represents default configuration values. -/
structure DefaultConfig where
  Image : String
  WorkingDir : String
  Timeout : Int
  Shell : String
deriving DecidableEq, Repr

/-- LoggingConfig represents logging configuration. -/
structure LoggingConfig where
  Level : String
  Format : String
  OutputFile : String
deriving DecidableEq, Repr

/-- DockerConfig represents Docker-specific configuration. -/
structure DockerConfig where
  Host : String
  APIVersion : String
  Registry : String
  PullPolicy : String
deriving DecidableEq, Repr

/-- RunnerConfig represents tool configuration and step type mappings. -/
structure RunnerConfig where
  Version : String
  StepTypes : GoMap StepType
  Environment : GoMap String
  Defaults : DefaultConfig
  Logging : LoggingConfig
  Docker : DockerConfig
deriving DecidableEq, Repr

namespace RunnerConfig

/-- The `for name, stepType := range rc.StepTypes` loop of `Validate`. -/
def stepTypesLoop : List (String × StepType) → Except String Unit
  | [] => .ok ()
  | (name, stepType) :: rest =>
    if stepType.Image = "" then
      .error ("step type '" ++ name ++ "' must have an image")
    else if stepType.Timeout ≤ 0 then
      .error ("step type '" ++ name ++ "' timeout must be positive")
    else
      stepTypesLoop rest

/-- Validate validates the runner configuration. -/
def Validate (rc : RunnerConfig) : Except String Unit :=
  if rc.Version = "" then
    .error "version is required"
  else if rc.Defaults.Image = "" then
    .error "default image is required"
  else if rc.Defaults.Timeout ≤ 0 then
    .error "default timeout must be positive"
  else
    stepTypesLoop rc.StepTypes.entries

/-- GetDefaultStepType returns the default step type configuration; the
result is the step type the returned pointer points to. -/
def GetDefaultStepType (rc : RunnerConfig) : StepType :=
  match rc.StepTypes.lookup "default" with
  | some st => st
  | none =>
    { Image := rc.Defaults.Image
      Environment := none
      Volumes := []
      Ports := []
      Timeout := rc.Defaults.Timeout }

end RunnerConfig

/-- NewDefaultRunnerConfig creates a new RunnerConfig with default values; the
result is the configuration the returned pointer points to. -/
def NewDefaultRunnerConfig : RunnerConfig :=
  { Version := "1.0"
    StepTypes := some [("default",
      { Image := "ubuntu:20.04"
        Environment := none
        Volumes := []
        Ports := []
        Timeout := 3600 })]
    Environment := some []
    Defaults :=
      { Image := "ubuntu:20.04"
        WorkingDir := "/opt/atlassian/pipelines/agent/build"
        Timeout := 3600
        Shell := "/bin/bash" }
    Logging :=
      { Level := "info"
        Format := "text"
        OutputFile := "" }
    Docker :=
      { Host := "unix:///var/run/docker.sock"
        APIVersion := "1.41"
        Registry := ""
        PullPolicy := "missing" } }

/-- The document `pipelines: {}`: a pipelines section with no channel at all. -/
def emptyGroup : PipelineConfig :=
  mkConfig (some ⟨none, none, none, none, none⟩)

/-- The document of the end-to-end scenario: a default pipeline with the one
step `echo hi`. -/
def echoHi : PipelineConfig :=
  mkConfig (some ⟨some [mkStep ["echo hi"]], none, none, none, none⟩)

/-- A step result with the index `i` and the name `name`. -/
def mkResult (i : Int) (name : String) : StepResult :=
  ⟨i, name, StepStatusCompleted, 0, none, 0, "", "", 0⟩

/-- A context made as the zero value of the struct: no document, nil maps. -/
def zeroContext : ExecutionContext :=
  ⟨none, 0, [], none, "", 0, none, "", ""⟩

/-- A context that ended `10 ^ 19` nanoseconds, some 317 years, after it
started. -/
def longContext : ExecutionContext :=
  { zeroContext with StartTime := 0, EndTime := some (10 ^ 19) }

/-- A runner configuration without a `default` step type. -/
def plainRunner : RunnerConfig :=
  ⟨"1.0", some [("node", ⟨"node:18", none, [], [], 600⟩)], none,
    ⟨"ubuntu:20.04", "/build", 3600, "/bin/bash"⟩, ⟨"info", "text", ""⟩, ⟨"", "", "", ""⟩⟩

/-! ## The script loop and `validatePipeline` -/

theorem scriptLoop_ok_iff (name : String) (l : List StepWrapper) (i : Nat) :
    scriptLoop name i l = .ok () ↔ ∀ sw ∈ l, sw.Step.Script ≠ [] := by
  induction l generalizing i with
  | nil => simp [scriptLoop]
  | cons a l ih =>
    by_cases h : a.Step.Script = []
    · simp [scriptLoop, h]
    · simp [scriptLoop, h, ih]

theorem scriptLoop_first (name : String) (l : List StepWrapper) (base i : Nat)
    (sw : StepWrapper) (hi : l[i]? = some sw) (hsw : sw.Step.Script = [])
    (hlt : ∀ j sw', j < i → l[j]? = some sw' → sw'.Step.Script ≠ []) :
    scriptLoop name base l = .error ("step " ++ toString (base + i + 1) ++
      " in pipeline '" ++ name ++ "' has no script defined") := by
  induction l generalizing base i with
  | nil => simp at hi
  | cons a l ih =>
    cases i with
    | zero =>
      simp at hi
      subst hi
      simp [scriptLoop, hsw]
    | succ i =>
      have ha : a.Step.Script ≠ [] := hlt 0 a (Nat.succ_pos i) (by simp)
      simp only [List.getElem?_cons_succ] at hi
      have := ih (base + 1) i hi (fun j sw' hj hj' => hlt (j + 1) sw' (by omega) (by simpa using hj'))
      simp only [scriptLoop, List.length_eq_zero, ha, if_false]
      rw [this]
      have e : base + 1 + i + 1 = base + (i + 1) + 1 := by omega
      rw [e]

theorem validatePipeline_ok_iff (pc : PipelineConfig) (name : String) (pl : Pipeline) :
    pc.validatePipeline name pl = .ok () ↔ pl.WellFormed := by
  unfold validatePipeline Pipeline.WellFormed
  by_cases h : pl.len = 0
  · simp [h]
  · simp only [h, if_false, scriptLoop_ok_iff]
    constructor
    · intro h2; exact ⟨Nat.pos_of_ne_zero h, h2⟩
    · intro h2; exact h2.2

theorem validatePipeline_error_of_not_wf (pc : PipelineConfig) (name : String) (pl : Pipeline)
    (h : ¬ pl.WellFormed) : ∃ msg, pc.validatePipeline name pl = .error msg := by
  cases hv : pc.validatePipeline name pl with
  | error msg => exact ⟨msg, rfl⟩
  | ok u => exact absurd ((validatePipeline_ok_iff pc name pl).1 hv) h

theorem validatePipeline_congr (pc pc' : PipelineConfig) (name : String) (pl : Pipeline) :
    pc.validatePipeline name pl = pc'.validatePipeline name pl := rfl

/-! ## The loops over the maps -/

theorem rangeValidate_congr (pc pc' : PipelineConfig) (q : String)
    (l : List (String × Pipeline)) : pc.rangeValidate q l = pc'.rangeValidate q l := by
  induction l with
  | nil => rfl
  | cons e l ih =>
    obtain ⟨k, pl⟩ := e
    simp only [rangeValidate, validatePipeline_congr pc pc', ih]

theorem rangeValidate_cons_wf (pc : PipelineConfig) (q k : String) (pl : Pipeline)
    (l : List (String × Pipeline)) (h : pl.WellFormed) :
    pc.rangeValidate q ((k, pl) :: l) = pc.rangeValidate q l := by
  have := (validatePipeline_ok_iff pc (q ++ k) pl).2 h
  simp only [rangeValidate, this]

theorem rangeValidate_cons_not_wf (pc : PipelineConfig) (q k : String) (pl : Pipeline)
    (l : List (String × Pipeline)) (h : ¬ pl.WellFormed) :
    pc.rangeValidate q ((k, pl) :: l) = pc.validatePipeline (q ++ k) pl := by
  obtain ⟨msg, hmsg⟩ := validatePipeline_error_of_not_wf pc (q ++ k) pl h
  simp only [rangeValidate, hmsg]

theorem rangeValidate_ok_iff (pc : PipelineConfig) (q : String)
    (l : List (String × Pipeline)) :
    pc.rangeValidate q l = .ok () ↔ ∀ e ∈ l, e.2.WellFormed := by
  induction l with
  | nil => simp [rangeValidate]
  | cons e l ih =>
    obtain ⟨k, pl⟩ := e
    by_cases h : pl.WellFormed
    · rw [rangeValidate_cons_wf pc q k pl l h, ih]
      simp [h]
    · rw [rangeValidate_cons_not_wf pc q k pl l h]
      simp [h, validatePipeline_ok_iff]

theorem rangeValidate_append_wf (pc : PipelineConfig) (q : String)
    (pre l : List (String × Pipeline)) (h : ∀ e ∈ pre, e.2.WellFormed) :
    pc.rangeValidate q (pre ++ l) = pc.rangeValidate q l := by
  induction pre with
  | nil => rfl
  | cons e pre ih =>
    obtain ⟨k, pl⟩ := e
    rw [List.cons_append, rangeValidate_cons_wf pc q k pl _ (h (k, pl) (by simp))]
    exact ih (fun e he => h e (by simp [he]))

theorem rangeValidate_append_error (pc : PipelineConfig) (q : String)
    (l l' : List (String × Pipeline)) (msg : String) (h : pc.rangeValidate q l = .error msg) :
    pc.rangeValidate q (l ++ l') = .error msg := by
  induction l with
  | nil => simp [rangeValidate] at h
  | cons e l ih =>
    obtain ⟨k, pl⟩ := e
    by_cases hw : pl.WellFormed
    · rw [rangeValidate_cons_wf pc q k pl l hw] at h
      rw [List.cons_append, rangeValidate_cons_wf pc q k pl _ hw]
      exact ih h
    · rw [rangeValidate_cons_not_wf pc q k pl l hw] at h
      rw [List.cons_append, rangeValidate_cons_not_wf pc q k pl _ hw]
      exact h

theorem rangeValidate_first (pc : PipelineConfig) (q k : String) (pl : Pipeline)
    (pre post : List (String × Pipeline)) (hpre : ∀ e ∈ pre, e.2.WellFormed)
    (hpl : ¬ pl.WellFormed) :
    pc.rangeValidate q (pre ++ (k, pl) :: post) = pc.validatePipeline (q ++ k) pl := by
  rw [rangeValidate_append_wf pc q pre _ hpre, rangeValidate_cons_not_wf pc q k pl post hpl]

theorem rangeValidate_filter (pc : PipelineConfig) (q : String)
    (l : List (String × Pipeline)) :
    pc.rangeValidate q l
      = pc.rangeValidate q (l.filter (fun e => decide (¬ e.2.WellFormed))) := by
  induction l with
  | nil => rfl
  | cons e l ih =>
    obtain ⟨k, pl⟩ := e
    by_cases hw : pl.WellFormed
    · rw [rangeValidate_cons_wf pc q k pl l hw, ih]
      simp [List.filter_cons, hw]
    · rw [rangeValidate_cons_not_wf pc q k pl l hw]
      simp only [List.filter_cons, hw, not_false_eq_true, decide_True, if_true]
      rw [rangeValidate_cons_not_wf pc q k pl _ hw]

theorem rangeValidate_map (pc : PipelineConfig) (q : String)
    (l : List (String × Pipeline)) :
    pc.rangeValidate "" (l.map (fun e => (q ++ e.1, e.2))) = pc.rangeValidate q l := by
  induction l with
  | nil => rfl
  | cons e l ih =>
    obtain ⟨k, pl⟩ := e
    simp only [List.map_cons, rangeValidate, ih, String.empty_append]

theorem rangeValidate_append (pc : PipelineConfig) (q : String)
    (l l' : List (String × Pipeline)) :
    pc.rangeValidate q (l ++ l') =
      match pc.rangeValidate q l with
      | .error err => .error err
      | .ok _ => pc.rangeValidate q l' := by
  cases h : pc.rangeValidate q l with
  | error msg => exact rangeValidate_append_error pc q l l' msg h
  | ok u => exact rangeValidate_append_wf pc q l l' ((rangeValidate_ok_iff pc q l).1 h)

/-! ## `Validate` -/

theorem Validate_nil (pc : PipelineConfig) (hp : pc.Pipelines = none) :
    pc.Validate = .error "no pipelines defined" := by
  simp only [Validate, hp]

theorem Validate_some (pc : PipelineConfig) (p : Pipelines) (hp : pc.Pipelines = some p) :
    pc.Validate =
      match pc.validateDefault p with
      | .error err => .error err
      | .ok _ =>
      match pc.rangeValidate "branches." p.Branches.entries with
      | .error err => .error err
      | .ok _ =>
      match pc.rangeValidate "pull-requests." p.PullRequests.entries with
      | .error err => .error err
      | .ok _ =>
      match pc.rangeValidate "custom." p.Custom.entries with
      | .error err => .error err
      | .ok _ =>
      match pc.rangeValidate "tags." p.Tags.entries with
      | .error err => .error err
      | .ok _ =>
      if p.Default.len = 0 ∧ p.Branches.len = 0 ∧ p.PullRequests.len = 0 ∧
          p.Custom.len = 0 ∧ p.Tags.len = 0 then
        .error "no pipelines defined"
      else
        .ok () := by
  simp only [Validate, hp]

theorem validateDefault_eq_range (pc : PipelineConfig) (p : Pipelines) :
    pc.validateDefault p =
      pc.rangeValidate "" (match p.Default with
        | none => []
        | some l => [("default", some l)]) := by
  unfold validateDefault
  cases hd : p.Default with
  | none => simp [Pipeline.len, rangeValidate]
  | some l =>
    cases l with
    | nil =>
      simp only [Pipeline.len, List.length_nil, Nat.lt_irrefl, if_false, Option.isSome_some,
        if_true, rangeValidate, validatePipeline, String.empty_append]
      rfl
    | cons a l =>
      have hw : pc.validatePipeline "default" (some (a :: l))
          = pc.validatePipeline ("" ++ "default") (some (a :: l)) := by
        rw [String.empty_append]
      simp only [Pipeline.len, List.length_cons, Nat.succ_pos, if_true, rangeValidate, ← hw]
      cases pc.validatePipeline "default" (some (a :: l)) <;> rfl

theorem Validate_eq_checked (pc : PipelineConfig) (p : Pipelines) (hp : pc.Pipelines = some p) :
    pc.Validate =
      match pc.rangeValidate "" p.checked with
      | .error err => .error err
      | .ok _ =>
        if p.Default.len = 0 ∧ p.Branches.len = 0 ∧ p.PullRequests.len = 0 ∧
            p.Custom.len = 0 ∧ p.Tags.len = 0 then
          .error "no pipelines defined"
        else
          .ok () := by
  rw [Validate_some pc p hp]
  unfold Pipelines.checked
  simp only [rangeValidate_append, rangeValidate_map, ← validateDefault_eq_range]
  cases pc.validateDefault p <;>
  cases pc.rangeValidate "branches." p.Branches.entries <;>
  cases pc.rangeValidate "pull-requests." p.PullRequests.entries <;>
  cases pc.rangeValidate "custom." p.Custom.entries <;>
  cases pc.rangeValidate "tags." p.Tags.entries <;> rfl

theorem validateDefault_ok_iff (pc : PipelineConfig) (p : Pipelines) :
    pc.validateDefault p = .ok () ↔
      p.Default ≠ some [] ∧ (0 < p.Default.len → p.Default.WellFormed) := by
  unfold validateDefault
  cases hd : p.Default with
  | none => simp [Pipeline.len]
  | some l =>
    cases l with
    | nil => simp [Pipeline.len]
    | cons a l => simp [Pipeline.len, validatePipeline_ok_iff]

theorem Validate_accepts_iff (pc : PipelineConfig) :
    pc.Validate = .ok () ↔
      ∃ p, pc.Pipelines = some p ∧ p.Default ≠ some [] ∧
        (0 < p.Default.len → p.Default.WellFormed) ∧
        (∀ e ∈ p.Branches.entries, e.2.WellFormed) ∧
        (∀ e ∈ p.PullRequests.entries, e.2.WellFormed) ∧
        (∀ e ∈ p.Custom.entries, e.2.WellFormed) ∧
        (∀ e ∈ p.Tags.entries, e.2.WellFormed) ∧
        (0 < p.Default.len ∨ 0 < p.Branches.len ∨ 0 < p.PullRequests.len ∨
          0 < p.Custom.len ∨ 0 < p.Tags.len) := by
  cases hp : pc.Pipelines with
  | none => simp [Validate_nil pc hp]
  | some p =>
    rw [Validate_some pc p hp]
    simp only [Option.some.injEq, exists_eq_left']
    have hne : (0 < p.Default.len ∨ 0 < p.Branches.len ∨ 0 < p.PullRequests.len ∨
          0 < p.Custom.len ∨ 0 < p.Tags.len) ↔ ¬ (p.Default.len = 0 ∧ p.Branches.len = 0 ∧
          p.PullRequests.len = 0 ∧ p.Custom.len = 0 ∧ p.Tags.len = 0) := by omega
    have key : (pc.validateDefault p = .ok () ∧
        pc.rangeValidate "branches." p.Branches.entries = .ok () ∧
        pc.rangeValidate "pull-requests." p.PullRequests.entries = .ok () ∧
        pc.rangeValidate "custom." p.Custom.entries = .ok () ∧
        pc.rangeValidate "tags." p.Tags.entries = .ok () ∧
        ¬ (p.Default.len = 0 ∧ p.Branches.len = 0 ∧
          p.PullRequests.len = 0 ∧ p.Custom.len = 0 ∧ p.Tags.len = 0)) ↔
      (p.Default ≠ some [] ∧
        (0 < p.Default.len → p.Default.WellFormed) ∧
        (∀ e ∈ p.Branches.entries, e.2.WellFormed) ∧
        (∀ e ∈ p.PullRequests.entries, e.2.WellFormed) ∧
        (∀ e ∈ p.Custom.entries, e.2.WellFormed) ∧
        (∀ e ∈ p.Tags.entries, e.2.WellFormed) ∧
        (0 < p.Default.len ∨ 0 < p.Branches.len ∨ 0 < p.PullRequests.len ∨
          0 < p.Custom.len ∨ 0 < p.Tags.len)) := by
      rw [validateDefault_ok_iff pc p, rangeValidate_ok_iff pc "branches.",
        rangeValidate_ok_iff pc "pull-requests.", rangeValidate_ok_iff pc "custom.",
        rangeValidate_ok_iff pc "tags.", hne, and_assoc]
    refine Iff.trans ?_ key
    cases pc.validateDefault p <;>
    cases pc.rangeValidate "branches." p.Branches.entries <;>
    cases pc.rangeValidate "pull-requests." p.PullRequests.entries <;>
    cases pc.rangeValidate "custom." p.Custom.entries <;>
    cases pc.rangeValidate "tags." p.Tags.entries <;> simp

theorem validatePipeline_empty (pc : PipelineConfig) (name : String) (pl : Pipeline)
    (h : pl.len = 0) :
    pc.validatePipeline name pl = .error ("pipeline '" ++ name ++ "' has no steps defined") := by
  simp only [validatePipeline, h, if_true]

theorem validatePipeline_first (pc : PipelineConfig) (name : String) (pl : Pipeline)
    (i : Nat) (sw : StepWrapper) (hi : pl.steps[i]? = some sw) (hsw : sw.Step.Script = [])
    (hlt : ∀ j sw', j < i → pl.steps[j]? = some sw' → sw'.Step.Script ≠ []) :
    pc.validatePipeline name pl = .error ("step " ++ toString (i + 1) ++
      " in pipeline '" ++ name ++ "' has no script defined") := by
  have hlen : pl.len ≠ 0 := by
    cases pl with
    | none => simp [Pipeline.steps] at hi
    | some l =>
      cases l with
      | nil => simp [Pipeline.steps] at hi
      | cons a l => simp [Pipeline.len]
  simp only [validatePipeline, hlen, if_false]
  have := scriptLoop_first name pl.steps 0 i sw hi hsw hlt
  rw [Nat.zero_add] at this
  exact this

theorem Validate_empty_group (pc : PipelineConfig) (p : Pipelines)
    (hp : pc.Pipelines = some p) (hd : p.Default = none) (hb : p.Branches.len = 0)
    (hr : p.PullRequests.len = 0) (hc : p.Custom.len = 0) (ht : p.Tags.len = 0) :
    pc.Validate = .error "no pipelines defined" := by
  rw [Validate_some pc p hp]
  have e1 : p.Branches.entries = [] := List.length_eq_zero.1 hb
  have e2 : p.PullRequests.entries = [] := List.length_eq_zero.1 hr
  have e3 : p.Custom.entries = [] := List.length_eq_zero.1 hc
  have e4 : p.Tags.entries = [] := List.length_eq_zero.1 ht
  simp [validateDefault, hd, Pipeline.len, e1, e2, e3, e4, rangeValidate, GoMap.len]

theorem Validate_default_error (pc : PipelineConfig) (p : Pipelines)
    (hp : pc.Pipelines = some p) (msg : String) (h : pc.validateDefault p = .error msg) :
    pc.Validate = .error msg := by
  rw [Validate_some pc p hp, h]

theorem Validate_channel_error (pc : PipelineConfig) (p : Pipelines)
    (hp : pc.Pipelines = some p) (c : MapChannel) (msg : String)
    (hdef : pc.validateDefault p = .ok ())
    (hother : ∀ c', c' ≠ c → ∀ e ∈ (p.channel c').entries, e.2.WellFormed)
    (hc : pc.rangeValidate c.qualifier (p.channel c).entries = .error msg) :
    pc.Validate = .error msg := by
  rw [Validate_some pc p hp, hdef]
  cases c with
  | branches =>
    simp only [MapChannel.qualifier, Pipelines.channel] at hc
    simp only [hc]
  | pullRequests =>
    have h1 := (rangeValidate_ok_iff pc "branches." _).2 (hother .branches (by decide))
    simp only [MapChannel.qualifier, Pipelines.channel] at hc h1
    simp only [hc, h1]
  | custom =>
    have h1 := (rangeValidate_ok_iff pc "branches." _).2 (hother .branches (by decide))
    have h2 := (rangeValidate_ok_iff pc "pull-requests." _).2 (hother .pullRequests (by decide))
    simp only [MapChannel.qualifier, Pipelines.channel] at hc h1 h2
    simp only [hc, h1, h2]
  | tags =>
    have h1 := (rangeValidate_ok_iff pc "branches." _).2 (hother .branches (by decide))
    have h2 := (rangeValidate_ok_iff pc "pull-requests." _).2 (hother .pullRequests (by decide))
    have h3 := (rangeValidate_ok_iff pc "custom." _).2 (hother .custom (by decide))
    simp only [MapChannel.qualifier, Pipelines.channel] at hc h1 h2 h3
    simp only [hc, h1, h2, h3]

/-! ## Properties of `Validate` -/

/-- C1: `Validate` returns no error exactly when the pipelines section is not
nil, the default pipeline is not a present-but-empty sequence, every checked
pipeline (a non-empty default and every entry of the four maps) has at least
one step and only steps with at least one script entry, and at least one of
the five channels is non-empty. -/
theorem Validate_ok_iff (pc : PipelineConfig) :
    pc.Validate = .ok () ↔
      ∃ p, pc.Pipelines = some p ∧ p.Default ≠ some [] ∧
        (0 < p.Default.len → p.Default.WellFormed) ∧
        (∀ e ∈ p.Branches.entries, e.2.WellFormed) ∧
        (∀ e ∈ p.PullRequests.entries, e.2.WellFormed) ∧
        (∀ e ∈ p.Custom.entries, e.2.WellFormed) ∧
        (∀ e ∈ p.Tags.entries, e.2.WellFormed) ∧
        (0 < p.Default.len ∨ 0 < p.Branches.len ∨ 0 < p.PullRequests.len ∨
          0 < p.Custom.len ∨ 0 < p.Tags.len) :=
  Validate_accepts_iff pc

/-- C2: when the default pipeline holds a step without script entries,
`Validate` fails with "step n in pipeline 'default' has no script defined",
n being the 1-based index of the first such step, whatever the maps hold. -/
theorem Validate_default_step_without_script (pc : PipelineConfig) (p : Pipelines)
    (steps : List StepWrapper) (i : Nat) (sw : StepWrapper)
    (hp : pc.Pipelines = some p) (hd : p.Default = some steps)
    (hi : steps[i]? = some sw) (hsw : sw.Step.Script = [])
    (hfirst : ∀ j sw', j < i → steps[j]? = some sw' → sw'.Step.Script ≠ []) :
    pc.Validate = .error ("step " ++ toString (i + 1) ++
      " in pipeline 'default' has no script defined") := by
  apply Validate_default_error pc p hp
  have hpos : 0 < p.Default.len := by
    rw [hd]
    cases steps with
    | nil => simp at hi
    | cons a l => simp [Pipeline.len]
  simp only [validateDefault, hpos, if_true]
  rw [validatePipeline_first pc "default" p.Default i sw (by rw [hd]; exact hi) hsw
    (fun j sw' hj hj' => hfirst j sw' hj (by rw [hd] at hj'; exact hj'))]
  rw [String.append_assoc _ "default", String.append_assoc _ " in pipeline '"]
  rfl

/-- The instance of C2 for a default pipeline whose second step has no script,
next to an invalid branch entry. -/
theorem Validate_default_step_without_script_witness :
    (mkConfig (some ⟨some [mkStep ["make"], mkStep []], some [("main", some [])],
      none, none, none⟩)).Validate
      = .error "step 2 in pipeline 'default' has no script defined" :=
  Validate_default_step_without_script _ _ [mkStep ["make"], mkStep []] 1 (mkStep []) rfl rfl
    rfl rfl (by
      intro j sw' hj hsw'
      have hj0 : j = 0 := by omega
      subst hj0
      simp at hsw'
      subst hsw'
      decide)

/-- C3: when the default pipeline is nil or well-formed and a single entry
`(k, pl)` of the four maps is not well-formed, `Validate` fails with the
message of that entry under the name `<channel>.<k>`: "has no steps defined"
when it has no step, else "step n ... has no script defined" for its first
step without script. The entries are taken in any enumeration order. -/
theorem Validate_single_invalid_entry (pc : PipelineConfig) (p : Pipelines) (c : MapChannel)
    (pre post : List (String × Pipeline)) (k : String) (pl : Pipeline)
    (hp : pc.Pipelines = some p)
    (hdef : p.Default = none ∨ p.Default.WellFormed)
    (hc : (p.channel c).entries = pre ++ (k, pl) :: post)
    (hpl : ¬ pl.WellFormed)
    (hrest : ∀ e ∈ pre ++ post, e.2.WellFormed)
    (hother : ∀ c', c' ≠ c → ∀ e ∈ (p.channel c').entries, e.2.WellFormed) :
    ∃ msg, pc.Validate = .error msg ∧
      (pl.len = 0 →
        msg = "pipeline '" ++ (c.qualifier ++ k) ++ "' has no steps defined") ∧
      (∀ i sw, pl.steps[i]? = some sw → sw.Step.Script = [] →
        (∀ j sw', j < i → pl.steps[j]? = some sw' → sw'.Step.Script ≠ []) →
        msg = "step " ++ toString (i + 1) ++ " in pipeline '" ++ (c.qualifier ++ k) ++
          "' has no script defined") := by
  have hd : pc.validateDefault p = .ok () := by
    rw [validateDefault_ok_iff]
    rcases hdef with h | h
    · simp [h, Pipeline.len]
    · refine ⟨?_, fun _ => h⟩
      intro h0
      rw [h0] at h
      exact absurd h.1 (by simp [Pipeline.len])
  have hrange : pc.rangeValidate c.qualifier (p.channel c).entries
      = pc.validatePipeline (c.qualifier ++ k) pl := by
    rw [hc]
    exact rangeValidate_first pc c.qualifier k pl pre post
      (fun e he => hrest e (List.mem_append_left _ he)) hpl
  obtain ⟨msg, hmsg⟩ := validatePipeline_error_of_not_wf pc (c.qualifier ++ k) pl hpl
  refine ⟨msg, Validate_channel_error pc p hp c msg hd hother (hrange.trans hmsg), ?_, ?_⟩
  · intro h0
    rw [validatePipeline_empty pc _ pl h0] at hmsg
    exact (Except.error.inj hmsg).symm
  · intro i sw hi hsw hlt
    rw [validatePipeline_first pc _ pl i sw hi hsw hlt] at hmsg
    exact (Except.error.inj hmsg).symm

/-- The instance of C3 from the specification: `branches.main` whose second
step has an empty script, enumerated after a well-formed entry. -/
theorem Validate_single_invalid_entry_witness :
    ∃ msg, (mkConfig (some ⟨none,
        some [("dev", some [mkStep ["make"]]), ("main", some [mkStep ["make"], mkStep []])],
        none, some [("nightly", some [mkStep ["make"]])], none⟩)).Validate = .error msg ∧
      msg = "step 2 in pipeline 'branches.main' has no script defined" := by
  obtain ⟨msg, hv, -, hstep⟩ := Validate_single_invalid_entry
    (mkConfig (some ⟨none,
        some [("dev", some [mkStep ["make"]]), ("main", some [mkStep ["make"], mkStep []])],
        none, some [("nightly", some [mkStep ["make"]])], none⟩))
    ⟨none,
        some [("dev", some [mkStep ["make"]]), ("main", some [mkStep ["make"], mkStep []])],
        none, some [("nightly", some [mkStep ["make"]])], none⟩
    .branches [("dev", some [mkStep ["make"]])] [] "main" (some [mkStep ["make"], mkStep []])
    rfl (Or.inl rfl) rfl (by decide) (by decide)
    (by intro c' hc'; cases c' <;> first | exact absurd rfl hc' | decide)
  refine ⟨msg, hv, ?_⟩
  have := hstep 1 (mkStep []) rfl rfl (by
    intro j sw' hj hsw'
    have hj0 : j = 0 := by omega
    subst hj0
    simp [Pipeline.steps] at hsw'
    subst hsw'
    decide)
  rw [this]
  decide

/-- C4: a non-nil pipelines section whose default pipeline is present but has
no step makes `Validate` fail with "pipeline 'default' has no steps defined",
whatever the maps hold; an empty pipelines section gives another message. -/
theorem Validate_default_present_empty (pc : PipelineConfig) (p : Pipelines)
    (hp : pc.Pipelines = some p) (hd : p.Default = some []) :
    pc.Validate = .error "pipeline 'default' has no steps defined" ∧
    ∀ (pc' : PipelineConfig) (p' : Pipelines), pc'.Pipelines = some p' → p'.Default = none →
      p'.Branches.len = 0 →
      p'.PullRequests.len = 0 → p'.Custom.len = 0 → p'.Tags.len = 0 →
      pc'.Validate = .error "no pipelines defined" ∧ pc'.Validate ≠ pc.Validate := by
  have h1 : pc.Validate = .error "pipeline 'default' has no steps defined" := by
    apply Validate_default_error pc p hp
    simp [validateDefault, hd, Pipeline.len]
  refine ⟨h1, ?_⟩
  intro pc' p' hp' hd' hb hr hc ht
  have h2 := Validate_empty_group pc' p' hp' hd' hb hr hc ht
  refine ⟨h2, ?_⟩
  rw [h1, h2]
  decide

/-- The instance of C4 for `pipelines: {default: []}` with a branch entry,
set against `pipelines: {}`. -/
theorem Validate_default_present_empty_witness :
    (mkConfig (some ⟨some [], some [("main", some [mkStep ["make"]])], none, none, none⟩)).Validate
      = .error "pipeline 'default' has no steps defined" ∧
    (mkConfig (some ⟨none, none, none, none, none⟩)).Validate = .error "no pipelines defined" :=
  ⟨(Validate_default_present_empty
      (mkConfig (some ⟨some [], some [("main", some [mkStep ["make"]])], none, none, none⟩))
      _ rfl rfl).1,
   ((Validate_default_present_empty
      (mkConfig (some ⟨some [], some [("main", some [mkStep ["make"]])], none, none, none⟩))
      _ rfl rfl).2 (mkConfig (some ⟨none, none, none, none, none⟩)) _ rfl rfl rfl rfl rfl rfl).1⟩

/-- C5: when the pipelines section is nil, or it is present with a nil default
pipeline and four empty maps, `Validate` fails with "no pipelines defined". -/
theorem Validate_no_pipelines (pc : PipelineConfig)
    (h : pc.Pipelines = none ∨
      ∃ p, pc.Pipelines = some p ∧ p.Default = none ∧ p.Branches.len = 0 ∧
        p.PullRequests.len = 0 ∧ p.Custom.len = 0 ∧ p.Tags.len = 0) :
    pc.Validate = .error "no pipelines defined" := by
  rcases h with h | ⟨p, hp, hd, hb, hr, hc, ht⟩
  · exact Validate_nil pc h
  · exact Validate_empty_group pc p hp hd hb hr hc ht

/-- The instance of C5 for a present pipelines section with empty, non-nil
maps. -/
theorem Validate_no_pipelines_witness :
    (mkConfig (some ⟨none, some [], none, some [], none⟩)).Validate
      = .error "no pipelines defined" :=
  Validate_no_pipelines _ (Or.inr ⟨_, rfl, rfl, rfl, rfl, rfl, rfl⟩)

/-- C6: `Validate` reports the first failure only, in the order default,
branches, pull-requests, custom, tags: when the first pipeline of that order
that is not well-formed is `pl` under the name `name`, the result of
`Validate` is the single error of `validatePipeline name pl`, whatever comes
after it. -/
theorem Validate_first_failure_wins (pc : PipelineConfig) (p : Pipelines)
    (pre post : List (String × Pipeline)) (name : String) (pl : Pipeline)
    (hp : pc.Pipelines = some p)
    (hsplit : p.checked = pre ++ (name, pl) :: post)
    (hpre : ∀ e ∈ pre, e.2.WellFormed) (hpl : ¬ pl.WellFormed) :
    pc.Validate = pc.validatePipeline name pl ∧
      ∃ msg, pc.validatePipeline name pl = .error msg := by
  obtain ⟨msg, hmsg⟩ := validatePipeline_error_of_not_wf pc name pl hpl
  refine ⟨?_, msg, hmsg⟩
  rw [Validate_eq_checked pc p hp, hsplit, rangeValidate_first pc "" name pl pre post hpre hpl,
    String.empty_append, hmsg]

/-- The instance of C6 for an invalid branch entry followed by an invalid
pull-request entry and an invalid tag entry. -/
theorem Validate_first_failure_wins_witness :
    (mkConfig (some ⟨some [mkStep ["make"]], some [("main", some [mkStep []])],
      some [("feature", some [])], none, some [("v1", some [])]⟩)).Validate
      = .error "step 1 in pipeline 'branches.main' has no script defined" :=
  (Validate_first_failure_wins
    (mkConfig (some ⟨some [mkStep ["make"]], some [("main", some [mkStep []])],
      some [("feature", some [])], none, some [("v1", some [])]⟩))
    ⟨some [mkStep ["make"]], some [("main", some [mkStep []])],
      some [("feature", some [])], none, some [("v1", some [])]⟩
    [("default", some [mkStep ["make"]])]
    [("pull-requests.feature", some []), ("tags.v1", some [])]
    "branches.main" (some [mkStep []]) rfl rfl (by decide) (by decide)).1

/-! ## Enumeration order of the maps -/

theorem validateDefault_congr (pc pc' : PipelineConfig) (p p' : Pipelines)
    (h : p.Default = p'.Default) : pc.validateDefault p = pc'.validateDefault p' := by
  simp only [validateDefault, h, validatePipeline_congr pc pc']

theorem invalidCount_eq_zero_iff (m : GoMap Pipeline) :
    invalidCount m = 0 ↔ ∀ e ∈ m.entries, e.2.WellFormed := by
  simp [invalidCount, List.filter_eq_nil_iff]

theorem rangeValidate_perm (pc pc' : PipelineConfig) (q : String) (m m' : GoMap Pipeline)
    (hperm : m.entries.Perm m'.entries) (hcount : invalidCount m ≤ 1) :
    pc.rangeValidate q m.entries = pc'.rangeValidate q m'.entries := by
  rw [rangeValidate_filter pc q m.entries, rangeValidate_filter pc' q m'.entries,
    rangeValidate_congr pc pc']
  have hf := hperm.filter (fun e => decide (¬ e.2.WellFormed))
  unfold invalidCount at hcount
  generalize List.filter (fun e => decide (¬ e.2.WellFormed)) m.entries = l at hf hcount
  generalize List.filter (fun e => decide (¬ e.2.WellFormed)) m'.entries = l' at hf
  match l, hcount with
  | [], _ => rw [List.nil_perm.1 hf]
  | [e], _ => rw [List.singleton_perm.1 hf]
  | _ :: _ :: _, hc => simp at hc

theorem SameMap_len (m m' : GoMap Pipeline) (h : m.SameMap m') : m.len = m'.len :=
  h.2.length_eq

theorem SameMap_all_wf (m m' : GoMap Pipeline) (h : m.SameMap m') :
    (∀ e ∈ m.entries, e.2.WellFormed) ↔ (∀ e ∈ m'.entries, e.2.WellFormed) := by
  constructor
  · intro hm e he
    exact hm e (h.2.mem_iff.2 he)
  · intro hm e he
    exact hm e (h.2.mem_iff.1 he)

theorem Validate_ok_reorder (pc pc' : PipelineConfig) (h : pc.Reorder pc') :
    pc.Validate = .ok () ↔ pc'.Validate = .ok () := by
  obtain ⟨-, -, -, -, h⟩ := h
  rw [Validate_accepts_iff, Validate_accepts_iff]
  cases hp : pc.Pipelines with
  | none =>
    cases hp' : pc'.Pipelines with
    | none => simp
    | some p' => simp [hp, hp'] at h
  | some p =>
    cases hp' : pc'.Pipelines with
    | none => simp [hp, hp'] at h
    | some p' =>
      simp only [hp, hp'] at h
      obtain ⟨hD, hB, hR, hC, hT⟩ := h
      simp only [Option.some.injEq, exists_eq_left']
      rw [hD, SameMap_all_wf _ _ hB, SameMap_all_wf _ _ hR, SameMap_all_wf _ _ hC,
        SameMap_all_wf _ _ hT, SameMap_len _ _ hB, SameMap_len _ _ hR, SameMap_len _ _ hC,
        SameMap_len _ _ hT]

theorem Validate_eq_reorder (pc pc' : PipelineConfig) (h : pc.Reorder pc')
    (hsingle : ∀ p, pc.Pipelines = some p → p.Default = none ∨ p.Default.WellFormed →
      p.SingleReport) :
    pc.Validate = pc'.Validate := by
  obtain ⟨-, -, -, -, h⟩ := h
  cases hp : pc.Pipelines with
  | none =>
    cases hp' : pc'.Pipelines with
    | none => rw [Validate_nil pc hp, Validate_nil pc' hp']
    | some p' => simp [hp, hp'] at h
  | some p =>
    cases hp' : pc'.Pipelines with
    | none => simp [hp, hp'] at h
    | some p' =>
      simp only [hp, hp'] at h
      obtain ⟨hD, hB, hR, hC, hT⟩ := h
      rw [Validate_some pc p hp, Validate_some pc' p' hp', ← validateDefault_congr pc pc' p p' hD,
        ← hD, ← SameMap_len _ _ hB, ← SameMap_len _ _ hR, ← SameMap_len _ _ hC,
        ← SameMap_len _ _ hT]
      cases hd : pc.validateDefault p with
      | error msg => rfl
      | ok u =>
        have hdef : p.Default = none ∨ p.Default.WellFormed := by
          have := (validateDefault_ok_iff pc p).1 hd
          cases hdv : p.Default with
          | none => exact Or.inl rfl
          | some l =>
            cases l with
            | nil => exact absurd hdv this.1
            | cons a l =>
              right
              rw [← hdv]
              exact this.2 (by simp [hdv, Pipeline.len])
        obtain ⟨s1, s2⟩ := hsingle p hp hdef
        rw [← rangeValidate_perm pc pc' "branches." _ _ hB.2 s1]
        cases h1 : pc.rangeValidate "branches." p.Branches.entries with
        | error msg => rfl
        | ok u =>
          obtain ⟨s2, s3⟩ := s2 ((invalidCount_eq_zero_iff _).2 ((rangeValidate_ok_iff _ _ _).1 h1))
          rw [← rangeValidate_perm pc pc' "pull-requests." _ _ hR.2 s2]
          cases h2 : pc.rangeValidate "pull-requests." p.PullRequests.entries with
          | error msg => rfl
          | ok u =>
            obtain ⟨s3, s4⟩ :=
              s3 ((invalidCount_eq_zero_iff _).2 ((rangeValidate_ok_iff _ _ _).1 h2))
            rw [← rangeValidate_perm pc pc' "custom." _ _ hC.2 s3]
            cases h3 : pc.rangeValidate "custom." p.Custom.entries with
            | error msg => rfl
            | ok u =>
              have s4 := s4 ((invalidCount_eq_zero_iff _).2 ((rangeValidate_ok_iff _ _ _).1 h3))
              rw [← rangeValidate_perm pc pc' "tags." _ _ hT.2 s4]

/-- C7, as stated, fails: the documents `orderAB` and `orderBA` are two
enumerations of one document with distinct keys, and `Validate` names entry
`a` in the first and entry `b` in the second. -/
theorem Validate_order_dependent :
    orderAB.Reorder orderBA ∧
    (∀ p, orderAB.Pipelines = some p → p.WF) ∧
    orderAB.Validate = .error "pipeline 'branches.a' has no steps defined" ∧
    orderBA.Validate = .error "pipeline 'branches.b' has no steps defined" ∧
    orderAB.Validate ≠ orderBA.Validate := by
  refine ⟨⟨rfl, rfl, rfl, rfl, rfl, ⟨rfl, List.Perm.swap _ _ _⟩, ⟨rfl, List.Perm.refl _⟩,
    ⟨rfl, List.Perm.refl _⟩, ⟨rfl, List.Perm.refl _⟩⟩, ?_, by decide, by decide, by decide⟩
  intro p hp
  have : p = ⟨none, some [("a", some []), ("b", some [])], none, none, none⟩ := by
    simp [orderAB, mkConfig] at hp
    exact hp.symm
  subst this
  refine ⟨?_, ?_, ?_, ?_⟩ <;> simp [GoMap.WF, GoMap.entries]

/-- C7, amended: for two enumerations of one document, `Validate` succeeds on
one exactly when it succeeds on the other, and it returns the very same result
whenever the first map with an invalid entry holds a single invalid entry (or
the default pipeline is the one that fails). -/
theorem Validate_reorder (pc pc' : PipelineConfig) (h : pc.Reorder pc') :
    (pc.Validate = .ok () ↔ pc'.Validate = .ok ()) ∧
    ((∀ p, pc.Pipelines = some p → p.Default = none ∨ p.Default.WellFormed →
        p.SingleReport) → pc.Validate = pc'.Validate) :=
  ⟨Validate_ok_reorder pc pc' h, Validate_eq_reorder pc pc' h⟩

/-- The instance of C7 (amended) for the two enumerations `singleAB` and
`singleBA` of a branches map with a single invalid entry. -/
theorem Validate_reorder_witness :
    singleAB.Reorder singleBA ∧ singleAB.Validate = singleBA.Validate := by
  have hre : singleAB.Reorder singleBA :=
    ⟨rfl, rfl, rfl, rfl, rfl, ⟨rfl, List.Perm.swap _ _ _⟩, ⟨rfl, List.Perm.refl _⟩,
      ⟨rfl, List.Perm.refl _⟩, ⟨rfl, List.Perm.refl _⟩⟩
  refine ⟨hre, (Validate_reorder singleAB singleBA hre).2 ?_⟩
  intro p hp _
  have : p = ⟨none, some [("a", some [mkStep ["make"]]), ("b", some [])], none, none, none⟩ := by
    simp [singleAB, mkConfig] at hp
    exact hp.symm
  subst this
  unfold Pipelines.SingleReport
  decide

/-! ## The selectors -/

theorem find_eq_some_of_mem (l : List (String × Pipeline)) (hnd : (l.map Prod.fst).Nodup)
    (b : String) (pl : Pipeline) (h : (b, pl) ∈ l) :
    (l.find? (fun e => e.1 == b)).map Prod.snd = some pl := by
  induction l with
  | nil => simp at h
  | cons e l ih =>
    obtain ⟨k, v⟩ := e
    simp only [List.map_cons, List.nodup_cons] at hnd
    by_cases hk : k = b
    · subst hk
      rcases List.mem_cons.1 h with h1 | h1
      · cases h1
        simp [List.find?_cons]
      · exact absurd (List.mem_map_of_mem Prod.fst h1) hnd.1
    · rcases List.mem_cons.1 h with h1 | h1
      · cases h1
        exact absurd rfl hk
      · have hkb : (k == b) = false := by simpa using hk
        simp only [List.find?_cons, hkb]
        exact ih hnd.2 h1

theorem lookup_eq_some_of_mem (m : GoMap Pipeline) (hwf : m.WF) (b : String) (pl : Pipeline)
    (h : (b, pl) ∈ m.entries) : m.lookup b = some pl :=
  find_eq_some_of_mem m.entries hwf b pl h

theorem mem_of_lookup_eq_some (m : GoMap Pipeline) (b : String) (pl : Pipeline)
    (h : m.lookup b = some pl) : (b, pl) ∈ m.entries := by
  unfold GoMap.lookup at h
  simp only [Option.map_eq_some'] at h
  obtain ⟨⟨k, v⟩, hf, hv⟩ := h
  have hk := List.find?_some hf
  simp only [beq_iff_eq] at hk hv
  subst hk
  subst hv
  exact List.mem_of_find?_eq_some hf

/-- C8: `GetDefaultPipeline` reports not-found exactly when the pipelines
section is nil or the default pipeline has no step, be it nil or present but
empty; otherwise it reports found and returns the default pipeline itself. -/
theorem GetDefaultPipeline_spec (pc : PipelineConfig) :
    ((pc.GetDefaultPipeline).2 = false ↔
      (pc.Pipelines = none ∨ ∃ p, pc.Pipelines = some p ∧ p.Default.len = 0)) ∧
    ((pc.GetDefaultPipeline).2 = false → pc.GetDefaultPipeline = (none, false)) ∧
    (∀ p, pc.Pipelines = some p → (p.Default = none ∨ p.Default = some []) →
      pc.GetDefaultPipeline = (none, false)) ∧
    (∀ p, pc.Pipelines = some p → p.Default.len ≠ 0 →
      pc.GetDefaultPipeline = (some p.Default, true)) := by
  refine ⟨?_, ?_, ?_, ?_⟩
  · unfold GetDefaultPipeline
    cases hp : pc.Pipelines with
    | none => simp
    | some p => by_cases h0 : p.Default.len = 0 <;> simp [h0]
  · unfold GetDefaultPipeline
    cases hp : pc.Pipelines with
    | none => simp
    | some p => by_cases h0 : p.Default.len = 0 <;> simp [h0]
  · intro p hp h
    have h0 : p.Default.len = 0 := by
      rcases h with h | h <;> simp [h, Pipeline.len]
    simp [GetDefaultPipeline, hp, h0]
  · intro p hp h0
    simp [GetDefaultPipeline, hp, h0]

/-- C9: `GetBranchPipeline b` reports found exactly when the pipelines section
is not nil and the branches map has an entry whose key is `b` itself, and it
then returns the pipeline stored under `b`; otherwise it reports not-found. -/
theorem GetBranchPipeline_spec (pc : PipelineConfig) (b : String)
    (hwf : ∀ p, pc.Pipelines = some p → p.Branches.WF) :
    ((pc.GetBranchPipeline b).2 = true ↔
      ∃ p pl, pc.Pipelines = some p ∧ (b, pl) ∈ p.Branches.entries) ∧
    (∀ p pl, pc.Pipelines = some p → (b, pl) ∈ p.Branches.entries →
      pc.GetBranchPipeline b = (some pl, true)) ∧
    ((pc.GetBranchPipeline b).2 = false → pc.GetBranchPipeline b = (none, false)) := by
  have hfound : ∀ p pl, pc.Pipelines = some p → (b, pl) ∈ p.Branches.entries →
      pc.GetBranchPipeline b = (some pl, true) := by
    intro p pl hp hmem
    have hl := lookup_eq_some_of_mem p.Branches (hwf p hp) b pl hmem
    have hsome : p.Branches.isNone = false := by
      cases hb : p.Branches with
      | none => simp [hb, GoMap.entries] at hmem
      | some l => rfl
    simp [GetBranchPipeline, hp, hl, hsome]
  refine ⟨⟨?_, ?_⟩, hfound, ?_⟩
  · intro h
    unfold GetBranchPipeline at h
    cases hp : pc.Pipelines with
    | none => simp [hp] at h
    | some p =>
      simp only [hp] at h
      cases hl : p.Branches.lookup b with
      | none => simp [hl] at h
      | some pl => exact ⟨p, pl, rfl, mem_of_lookup_eq_some p.Branches b pl hl⟩
  · rintro ⟨p, pl, hp, hmem⟩
    rw [hfound p pl hp hmem]
  · intro h
    unfold GetBranchPipeline at h ⊢
    cases hp : pc.Pipelines with
    | none => rfl
    | some p =>
      simp only [hp] at h ⊢
      by_cases hn : p.Branches.isNone = true
      · simp [hn]
      · cases hl : p.Branches.lookup b with
        | none => simp [hl]
        | some pl => simp [hn, hl] at h

/-- The instance of C9 for the branches `main` and `main-dev`: `main` selects
its own pipeline, and the pattern `main*` selects nothing. -/
theorem GetBranchPipeline_spec_witness :
    twoBranches.GetBranchPipeline "main" = (some (some [mkStep ["make"]]), true) ∧
    twoBranches.GetBranchPipeline "main*" = (none, false) := by
  have hwf : ∀ p, twoBranches.Pipelines = some p → p.Branches.WF := by
    intro p hp
    have : p = ⟨none,
        some [("main-dev", some [mkStep ["make dev"]]), ("main", some [mkStep ["make"]])],
        none, none, none⟩ := by
      simp [twoBranches, mkConfig] at hp
      exact hp.symm
    subst this
    simp [GoMap.WF, GoMap.entries]
  exact ⟨(GetBranchPipeline_spec twoBranches "main" hwf).2.1 _ _ rfl (by decide), by decide⟩

end Models

namespace Parser

open Models Models.PipelineConfig

/-- C10: `ParseYAML` returns a config exactly when decoding yields it and
`Validate` accepts it; a decoding error `e` is reported as "failed to
unmarshal YAML: " followed by `e`, a validation error `m` as "invalid pipeline
configuration: " followed by `m`, so that an empty pipelines section yields an
error that ends in "no pipelines defined". -/
theorem ParseYAML_spec (unmarshal : List UInt8 → Except String PipelineConfig)
    (data : List UInt8) :
    (∀ config, ParseYAML unmarshal data = .ok config ↔
      (unmarshal data = .ok config ∧ config.Validate = .ok ())) ∧
    (∀ e, unmarshal data = .error e →
      ParseYAML unmarshal data = .error ("failed to unmarshal YAML: " ++ e)) ∧
    (∀ config m, unmarshal data = .ok config → config.Validate = .error m →
      ParseYAML unmarshal data = .error ("invalid pipeline configuration: " ++ m)) ∧
    (∀ config p, unmarshal data = .ok config → config.Pipelines = some p →
      p.Default = none → p.Branches.len = 0 → p.PullRequests.len = 0 → p.Custom.len = 0 →
      p.Tags.len = 0 →
      ParseYAML unmarshal data
        = .error ("invalid pipeline configuration: " ++ "no pipelines defined")) := by
  have hval : ∀ config m, unmarshal data = .ok config → config.Validate = .error m →
      ParseYAML unmarshal data = .error ("invalid pipeline configuration: " ++ m) := by
    intro config m hu hv
    simp only [ParseYAML, hu, hv]
  refine ⟨?_, ?_, hval, ?_⟩
  · intro config
    cases hu : unmarshal data with
    | error e => simp [ParseYAML, hu]
    | ok cfg =>
      cases hv : cfg.Validate with
      | error m =>
        simp only [ParseYAML, hu, hv, reduceCtorEq, Except.ok.injEq, false_iff, not_and]
        intro hc
        subst hc
        rw [hv]
        simp
      | ok u =>
        simp only [ParseYAML, hu, hv, Except.ok.injEq]
        constructor
        · intro hc
          subst hc
          exact ⟨rfl, hv⟩
        · intro hc
          exact hc.1
  · intro e hu
    simp only [ParseYAML, hu]
  · intro config p hu hp hd hb hr hc ht
    exact hval config _ hu (Validate_empty_group config p hp hd hb hr hc ht)

/-- The instance of C10 for a decoder that reads its input as `pipelines: {}`. -/
theorem ParseYAML_spec_witness :
    ParseYAML decodeEmptyGroup [] = .error "invalid pipeline configuration: no pipelines defined" :=
  (ParseYAML_spec decodeEmptyGroup []).2.2.2 _ _ rfl rfl rfl rfl rfl rfl rfl

end Parser

namespace Models

open ExecutionContext

/-! ## Cache decoding -/

/-- C11: on a fresh cache `UnmarshalYAML` makes two ordered attempts. A value
that decodes as a string `s` gives `Path = s` with `Key` and `Paths` empty,
whatever the structured attempt would yield; otherwise a value that decodes
as a structured object gives its `Key` and `Paths`; otherwise the error is
the one of the structured attempt and the receiver is unchanged. -/
theorem Cache_UnmarshalYAML_two_attempts (unmarshalString : Except String String)
    (unmarshalStruct : Except String Cache) :
    (∀ s, unmarshalString = .ok s →
      ∀ other, Cache.zero.UnmarshalYAML unmarshalString other = (.ok (), ⟨"", [], s⟩)) ∧
    (∀ e o, unmarshalString = .error e → unmarshalStruct = .ok o →
      (Cache.zero.UnmarshalYAML unmarshalString unmarshalStruct).1 = .ok () ∧
      (Cache.zero.UnmarshalYAML unmarshalString unmarshalStruct).2.Key = o.Key ∧
      (Cache.zero.UnmarshalYAML unmarshalString unmarshalStruct).2.Paths = o.Paths) ∧
    (∀ (e e2 : String) (c : Cache), unmarshalString = .error e → unmarshalStruct = .error e2 →
      c.UnmarshalYAML unmarshalString unmarshalStruct = (.error e2, c)) := by
  refine ⟨?_, ?_, ?_⟩
  · intro s hs other
    subst hs
    rfl
  · intro e o he ho
    subst he
    subst ho
    exact ⟨rfl, rfl, rfl⟩
  · intro e e2 c he he2
    subst he
    subst he2
    rfl

/-- The instances of C11 from the specification: the bare string `node`, the
object with key `k` and paths `a/`, and a value neither attempt decodes. -/
theorem Cache_UnmarshalYAML_two_attempts_witness :
    Cache.zero.UnmarshalYAML (.ok "node") (.error "cannot unmarshal !!str into cacheAlias")
      = (.ok (), ⟨"", [], "node"⟩) ∧
    (Cache.zero.UnmarshalYAML (.error "cannot unmarshal !!map into string")
      (.ok ⟨"k", ["a/"], ""⟩)).2.Key = "k" ∧
    Cache.zero.UnmarshalYAML (.error "cannot unmarshal !!map into string")
      (.error "cannot unmarshal !!int into string")
      = (.error "cannot unmarshal !!int into string", Cache.zero) :=
  ⟨(Cache_UnmarshalYAML_two_attempts (.ok "node") (.error "")).1 "node" rfl _,
   ((Cache_UnmarshalYAML_two_attempts (.error "cannot unmarshal !!map into string")
      (.ok ⟨"k", ["a/"], ""⟩)).2.1 _ _ rfl rfl).2.1,
   (Cache_UnmarshalYAML_two_attempts (.error "cannot unmarshal !!map into string")
      (.error "cannot unmarshal !!int into string")).2.2 _ _ _ rfl rfl⟩

/-- C12, as stated, fails: an object with a key, paths and a `path` entry
decodes with both representations populated, and the empty string (like the
empty object) decodes with neither. -/
theorem Cache_UnmarshalYAML_not_exclusive :
    (Cache.zero.UnmarshalYAML (.error "cannot unmarshal !!map into string")
      (.ok ⟨"k", ["a/"], "legacy"⟩)) = (.ok (), ⟨"k", ["a/"], "legacy"⟩) ∧
    ¬ (Cache.zero.UnmarshalYAML (.error "cannot unmarshal !!map into string")
      (.ok ⟨"k", ["a/"], "legacy"⟩)).2.ExactlyOne ∧
    (Cache.zero.UnmarshalYAML (.ok "") (.error "cannot unmarshal !!str into cacheAlias"))
      = (.ok (), ⟨"", [], ""⟩) ∧
    ¬ (Cache.zero.UnmarshalYAML (.ok "")
      (.error "cannot unmarshal !!str into cacheAlias")).2.ExactlyOne := by
  refine ⟨rfl, by decide, rfl, by decide⟩

/-- C12, amended: after a successful decode into a fresh cache, a value that
decoded as a string `s` leaves `Path = s` with `Key` and `Paths` empty, so
that exactly one representation is populated when `s` is not empty; a value
that decoded as an object `o` leaves the three fields of `o`, so that exactly
one representation is populated exactly when that holds of `o`, as it does
when `o` has no path and a key or paths. -/
theorem Cache_UnmarshalYAML_populated (unmarshalString : Except String String)
    (unmarshalStruct : Except String Cache) :
    (∀ s, unmarshalString = .ok s →
      (Cache.zero.UnmarshalYAML unmarshalString unmarshalStruct).2 = ⟨"", [], s⟩ ∧
      (s ≠ "" → (Cache.zero.UnmarshalYAML unmarshalString unmarshalStruct).2.ExactlyOne)) ∧
    (∀ e o, unmarshalString = .error e → unmarshalStruct = .ok o →
      (Cache.zero.UnmarshalYAML unmarshalString unmarshalStruct).2 = o ∧
      (o.Path = "" → o.Key ≠ "" ∨ o.Paths ≠ [] →
        (Cache.zero.UnmarshalYAML unmarshalString unmarshalStruct).2.ExactlyOne)) := by
  refine ⟨?_, ?_⟩
  · intro s hs
    subst hs
    refine ⟨rfl, fun hne => Or.inl ⟨hne, rfl, rfl⟩⟩
  · intro e o he ho
    subst he
    subst ho
    refine ⟨rfl, fun hp hk => Or.inr ⟨hk, hp⟩⟩

/-- The instances of C12 (amended) from the specification: `node` populates
the path alone, the object with key `k` and paths `a/` populates key and
paths alone. -/
theorem Cache_UnmarshalYAML_populated_witness :
    (Cache.zero.UnmarshalYAML (.ok "node")
      (.error "cannot unmarshal !!str into cacheAlias")).2.ExactlyOne ∧
    (Cache.zero.UnmarshalYAML (.error "cannot unmarshal !!map into string")
      (.ok ⟨"k", ["a/"], ""⟩)).2.ExactlyOne :=
  ⟨((Cache_UnmarshalYAML_populated (.ok "node")
      (.error "cannot unmarshal !!str into cacheAlias")).1 "node" rfl).2 (by decide),
   ((Cache_UnmarshalYAML_populated (.error "cannot unmarshal !!map into string")
      (.ok ⟨"k", ["a/"], ""⟩)).2 _ _ rfl rfl).2 rfl (Or.inl (by decide))⟩

/-! ## Execution state -/

/-- C13: `StartExecution` at the clock reading `t` sets `Status` to running
and `StartTime` to `t` and leaves the seven other fields unchanged; when `t`
is later than the previous `StartTime`, the new one is strictly after it. -/
theorem StartExecution_spec (ec : ExecutionContext) (t : Time) :
    (ec.StartExecution t).Status = ExecutionStatusRunning ∧
    (ec.StartExecution t).StartTime = t ∧
    (ec.StartExecution t).PipelineConfig = ec.PipelineConfig ∧
    (ec.StartExecution t).CurrentStep = ec.CurrentStep ∧
    (ec.StartExecution t).StepResults = ec.StepResults ∧
    (ec.StartExecution t).Environment = ec.Environment ∧
    (ec.StartExecution t).WorkingDir = ec.WorkingDir ∧
    (ec.StartExecution t).EndTime = ec.EndTime ∧
    (ec.StartExecution t).ErrorMessage = ec.ErrorMessage ∧
    (ec.StartTime < t → ec.StartTime < (ec.StartExecution t).StartTime) := by
  refine ⟨rfl, rfl, rfl, rfl, rfl, rfl, rfl, rfl, rfl, ?_⟩
  intro h
  exact h

/-- C14: `StartExecution` at `s` followed by `CompleteExecution` at `t` yields
the status completed and the end time `t`, with `ErrorMessage`, `CurrentStep`
and `StepResults` unchanged; when `s < t` the end time is strictly after the
start time. -/
theorem StartExecution_CompleteExecution (ec : ExecutionContext) (s t : Time) :
    ((ec.StartExecution s).CompleteExecution t).Status = ExecutionStatusCompleted ∧
    ((ec.StartExecution s).CompleteExecution t).EndTime = some t ∧
    ((ec.StartExecution s).CompleteExecution t).ErrorMessage = ec.ErrorMessage ∧
    ((ec.StartExecution s).CompleteExecution t).CurrentStep = ec.CurrentStep ∧
    ((ec.StartExecution s).CompleteExecution t).StepResults = ec.StepResults ∧
    (s < t → ∃ e, ((ec.StartExecution s).CompleteExecution t).EndTime = some e ∧
      ((ec.StartExecution s).CompleteExecution t).StartTime < e) := by
  refine ⟨rfl, rfl, rfl, rfl, rfl, ?_⟩
  intro h
  exact ⟨t, rfl, h⟩

/-- C15: `StartExecution` followed by `FailExecution m` at `t` yields the
status failed, the error message `m` and the end time `t`, with `CurrentStep`
and `StepResults` unchanged. -/
theorem StartExecution_FailExecution (ec : ExecutionContext) (s t : Time) (m : String) :
    ((ec.StartExecution s).FailExecution m t).Status = ExecutionStatusFailed ∧
    ((ec.StartExecution s).FailExecution m t).ErrorMessage = m ∧
    ((ec.StartExecution s).FailExecution m t).EndTime = some t ∧
    ((ec.StartExecution s).FailExecution m t).CurrentStep = ec.CurrentStep ∧
    ((ec.StartExecution s).FailExecution m t).StepResults = ec.StepResults := by
  exact ⟨rfl, rfl, rfl, rfl, rfl⟩

/-- C16, as stated, fails: on a context whose status is completed,
`StartExecution` sets the status to running and `FailExecution` sets it to
failed. -/
theorem Status_not_terminal :
    completedContext.Status = ExecutionStatusCompleted ∧
    (completedContext.StartExecution 7).Status = ExecutionStatusRunning ∧
    (completedContext.StartExecution 7).Status ≠ completedContext.Status ∧
    (completedContext.FailExecution "late" 7).Status = ExecutionStatusFailed ∧
    (completedContext.FailExecution "late" 7).Status ≠ completedContext.Status := by
  refine ⟨rfl, rfl, by decide, rfl, by decide⟩

/-- C16, amended: `AddStepResult`, `NextStep` and `SetEnvironmentVariable`
leave `Status` as it is, whereas `StartExecution`, `CompleteExecution` and
`FailExecution` set it to running, completed and failed, whatever it was. -/
theorem Status_after_operation (ec : ExecutionContext) :
    (∀ r, (ec.AddStepResult r).Status = ec.Status) ∧
    ec.NextStep.Status = ec.Status ∧
    (∀ k v ec', ec.SetEnvironmentVariable k v = .ok ec' → ec'.Status = ec.Status) ∧
    (∀ t, (ec.StartExecution t).Status = ExecutionStatusRunning) ∧
    (∀ t, (ec.CompleteExecution t).Status = ExecutionStatusCompleted) ∧
    (∀ m t, (ec.FailExecution m t).Status = ExecutionStatusFailed) := by
  refine ⟨fun _ => rfl, rfl, ?_, fun _ => rfl, fun _ => rfl, fun _ _ => rfl⟩
  intro k v ec' h
  unfold SetEnvironmentVariable at h
  cases henv : ec.Environment with
  | none => simp [henv] at h
  | some l =>
    simp only [henv, Except.ok.injEq] at h
    rw [← h]

/-- The instance of C16 (amended) for setting a variable on a completed
context. -/
theorem Status_after_operation_witness :
    ∃ ec', completedContext.SetEnvironmentVariable "CI" "true" = .ok ec' ∧
      ec'.Status = ExecutionStatusCompleted :=
  ⟨_, rfl, (Status_after_operation completedContext).2.2.1 "CI" "true" _ rfl⟩

/-- C17: `AddStepResult r` makes `StepResults` the previous log followed by
`r` as its last element, one entry longer with the earlier entries in place,
and changes no other field. -/
theorem AddStepResult_spec (ec : ExecutionContext) (r : StepResult) :
    (ec.AddStepResult r).StepResults = ec.StepResults ++ [r] ∧
    (ec.AddStepResult r).StepResults.length = ec.StepResults.length + 1 ∧
    (ec.AddStepResult r).StepResults.getLast? = some r ∧
    (∀ i, i < ec.StepResults.length →
      (ec.AddStepResult r).StepResults[i]? = ec.StepResults[i]?) ∧
    (ec.AddStepResult r).CurrentStep = ec.CurrentStep ∧
    (ec.AddStepResult r).Status = ec.Status ∧
    (ec.AddStepResult r).PipelineConfig = ec.PipelineConfig ∧
    (ec.AddStepResult r).Environment = ec.Environment ∧
    (ec.AddStepResult r).WorkingDir = ec.WorkingDir ∧
    (ec.AddStepResult r).StartTime = ec.StartTime ∧
    (ec.AddStepResult r).EndTime = ec.EndTime ∧
    (ec.AddStepResult r).ErrorMessage = ec.ErrorMessage := by
  refine ⟨rfl, ?_, ?_, ?_, rfl, rfl, rfl, rfl, rfl, rfl, rfl, rfl⟩
  · simp [AddStepResult]
  · simp [AddStepResult]
  · intro i hi
    simp only [AddStepResult]
    exact List.getElem?_append_left hi

/-! ## The cursor -/

theorem GetDefaultPipeline_found (pc : PipelineConfig) (h : (pc.GetDefaultPipeline).2 = true) :
    ∃ p, pc.Pipelines = some p ∧ p.Default.len ≠ 0 ∧
      pc.GetDefaultPipeline = (some p.Default, true) := by
  unfold PipelineConfig.GetDefaultPipeline at h ⊢
  cases hp : pc.Pipelines with
  | none => simp [hp] at h
  | some p =>
    by_cases h0 : p.Default.len = 0
    · simp [hp, h0] at h
    · exact ⟨p, rfl, h0, by simp [h0]⟩

theorem GetDefaultPipeline_cases (pc : PipelineConfig) :
    (pc.GetDefaultPipeline).2 = false ∨ ∃ pl, pc.GetDefaultPipeline = (some pl, true) := by
  cases h : (pc.GetDefaultPipeline).2 with
  | false => exact Or.inl rfl
  | true =>
    obtain ⟨p, -, -, hg⟩ := GetDefaultPipeline_found pc h
    exact Or.inr ⟨p.Default, hg⟩

theorem goIndex_in_range {α : Type} (l : List α) (i : Int) (h0 : 0 ≤ i)
    (h1 : i < (l.length : Int)) : ∃ x, l[i.toNat]? = some x ∧ goIndex l i = .ok x := by
  have hlt : i.toNat < l.length := by omega
  refine ⟨l[i.toNat], List.getElem?_eq_getElem hlt, ?_⟩
  unfold goIndex
  rw [if_neg (by omega), List.getElem?_eq_getElem hlt]

theorem goIndex_negative {α : Type} (l : List α) (i : Int) (h : i < 0) :
    goIndex l i = .error "index out of range" := by
  unfold goIndex
  rw [if_pos h]

theorem Pipeline_len_eq_length (pl : Pipeline) : pl.len = pl.steps.length := by
  cases pl <;> rfl

theorem GetCurrentStep_no_config (ec : ExecutionContext) (h : ec.PipelineConfig = none) :
    ec.GetCurrentStep = .ok none := by
  simp only [GetCurrentStep, h]

theorem GetCurrentStep_not_found (ec : ExecutionContext) (pc : PipelineConfig)
    (h : ec.PipelineConfig = some pc) (hg : (pc.GetDefaultPipeline).2 = false) :
    ec.GetCurrentStep = .ok none := by
  unfold GetCurrentStep
  rw [h]
  rcases hpair : pc.GetDefaultPipeline with ⟨a, b⟩
  rw [hpair] at hg
  simp only at hg
  subst hg
  simp only [hpair]

theorem GetCurrentStep_past_end (ec : ExecutionContext) (pc : PipelineConfig) (pl : Pipeline)
    (h : ec.PipelineConfig = some pc) (hg : pc.GetDefaultPipeline = (some pl, true))
    (hge : (pl.len : Int) ≤ ec.CurrentStep) : ec.GetCurrentStep = .ok none := by
  simp only [GetCurrentStep, h, hg, ge_iff_le, hge, if_true]

theorem GetCurrentStep_in_range (ec : ExecutionContext) (pc : PipelineConfig) (pl : Pipeline)
    (h : ec.PipelineConfig = some pc) (hg : pc.GetDefaultPipeline = (some pl, true))
    (h0 : 0 ≤ ec.CurrentStep) (h1 : ec.CurrentStep < (pl.len : Int)) :
    ∃ sw, pl.steps[ec.CurrentStep.toNat]? = some sw ∧ ec.GetCurrentStep = .ok (some sw.Step) := by
  obtain ⟨sw, hsw, hidx⟩ := goIndex_in_range pl.steps ec.CurrentStep h0
    (by rw [← Pipeline_len_eq_length]; exact h1)
  refine ⟨sw, hsw, ?_⟩
  simp only [GetCurrentStep, h, hg, ge_iff_le, not_le.2 h1, if_false, hidx]

theorem GetCurrentStep_negative (ec : ExecutionContext) (pc : PipelineConfig) (pl : Pipeline)
    (h : ec.PipelineConfig = some pc) (hg : pc.GetDefaultPipeline = (some pl, true))
    (hneg : ec.CurrentStep < 0) : ec.GetCurrentStep = .error "index out of range" := by
  have hlt : ¬ ((pl.len : Int) ≤ ec.CurrentStep) := by omega
  simp only [GetCurrentStep, h, hg, ge_iff_le, hlt, if_false, goIndex_negative _ _ hneg]

theorem IsCompleted_no_config (ec : ExecutionContext) (h : ec.PipelineConfig = none) :
    ec.IsCompleted = .ok true := by
  simp only [IsCompleted, h]

theorem IsCompleted_not_found (ec : ExecutionContext) (pc : PipelineConfig)
    (h : ec.PipelineConfig = some pc) (hg : (pc.GetDefaultPipeline).2 = false) :
    ec.IsCompleted = .ok true := by
  unfold IsCompleted
  rw [h]
  rcases hpair : pc.GetDefaultPipeline with ⟨a, b⟩
  rw [hpair] at hg
  simp only at hg
  subst hg
  simp only [hpair]

theorem IsCompleted_found (ec : ExecutionContext) (pc : PipelineConfig) (pl : Pipeline)
    (h : ec.PipelineConfig = some pc) (hg : pc.GetDefaultPipeline = (some pl, true)) :
    ec.IsCompleted = .ok (decide ((pl.len : Int) ≤ ec.CurrentStep)) := by
  simp only [IsCompleted, h, hg, ge_iff_le]

/-- C18: `GetCurrentStep` returns nothing when no document is bound, when
`GetDefaultPipeline` reports not-found, or when `CurrentStep` is at or past
the length of the default pipeline; for `0 ≤ CurrentStep < length` it returns
the step at index `CurrentStep` of the default pipeline. -/
theorem GetCurrentStep_spec (ec : ExecutionContext) :
    (ec.PipelineConfig = none → ec.GetCurrentStep = .ok none) ∧
    (∀ pc, ec.PipelineConfig = some pc → (pc.GetDefaultPipeline).2 = false →
      ec.GetCurrentStep = .ok none) ∧
    (∀ pc pl, ec.PipelineConfig = some pc → pc.GetDefaultPipeline = (some pl, true) →
      (pl.len : Int) ≤ ec.CurrentStep → ec.GetCurrentStep = .ok none) ∧
    (∀ pc pl, ec.PipelineConfig = some pc → pc.GetDefaultPipeline = (some pl, true) →
      0 ≤ ec.CurrentStep → ec.CurrentStep < (pl.len : Int) →
      ∃ sw, pl.steps[ec.CurrentStep.toNat]? = some sw ∧
        ec.GetCurrentStep = .ok (some sw.Step)) ∧
    (∀ pc, ec.PipelineConfig = some pc →
      (pc.GetDefaultPipeline).2 = false ∨
        ∃ p, pc.Pipelines = some p ∧ pc.GetDefaultPipeline = (some p.Default, true)) := by
  refine ⟨GetCurrentStep_no_config ec, GetCurrentStep_not_found ec, GetCurrentStep_past_end ec,
    GetCurrentStep_in_range ec, ?_⟩
  intro pc _
  cases h : (pc.GetDefaultPipeline).2 with
  | false => exact Or.inl rfl
  | true =>
    obtain ⟨p, hp, -, hg⟩ := GetDefaultPipeline_found pc h
    exact Or.inr ⟨p, hp, hg⟩

/-- The instance of C18 for the two-step document `twoSteps`: the cursor 1
selects the step `test`, the cursor 2 selects nothing. -/
theorem GetCurrentStep_spec_witness :
    (∃ sw, sw = mkStep ["test"] ∧
      ({ NewExecutionContext (some twoSteps) "" 0 with CurrentStep := 1 }).GetCurrentStep
        = .ok (some sw.Step)) ∧
    ({ NewExecutionContext (some twoSteps) "" 0 with CurrentStep := 2 }).GetCurrentStep
      = .ok none := by
  refine ⟨?_, ?_⟩
  · obtain ⟨sw, hsw, hget⟩ := (GetCurrentStep_spec
      { NewExecutionContext (some twoSteps) "" 0 with CurrentStep := 1 }).2.2.2.1 twoSteps
      (some [mkStep ["build"], mkStep ["test"]]) rfl rfl (by decide) (by decide)
    refine ⟨sw, ?_, hget⟩
    have : (Pipeline.steps (some [mkStep ["build"], mkStep ["test"]]))[(1 : Int).toNat]?
        = some (mkStep ["test"]) := rfl
    rw [this] at hsw
    exact (Option.some.inj hsw).symm
  · exact (GetCurrentStep_spec
      { NewExecutionContext (some twoSteps) "" 0 with CurrentStep := 2 }).2.2.1 twoSteps
      (some [mkStep ["build"], mkStep ["test"]]) rfl rfl (by decide)

/-! ## Advancing the cursor -/

theorem intWrap_of_range (x : Int) (h0 : minInt ≤ x) (h1 : x ≤ maxInt) : intWrap x = x := by
  unfold minInt at h0
  unfold maxInt at h1
  unfold intWrap
  omega

theorem intWrap_succ (x : Int) : intWrap (intWrap x + 1) = intWrap (x + 1) := by
  unfold intWrap
  omega

theorem intWrap_maxInt_succ : intWrap (maxInt + 1) = minInt := by
  unfold intWrap maxInt minInt
  omega

theorem iterate_NextStep_config (ec : ExecutionContext) (k : Nat) :
    (NextStep^[k] ec).PipelineConfig = ec.PipelineConfig := by
  induction k with
  | zero => rfl
  | succ k ih =>
    rw [Function.iterate_succ_apply']
    exact ih

theorem iterate_NextStep_cursor (ec : ExecutionContext) (k : Nat)
    (h : intWrap ec.CurrentStep = ec.CurrentStep) :
    (NextStep^[k] ec).CurrentStep = intWrap (ec.CurrentStep + (k : Int)) := by
  induction k with
  | zero => simpa using h.symm
  | succ k ih =>
    rw [Function.iterate_succ_apply']
    show intWrap ((NextStep^[k] ec).CurrentStep + 1) = _
    rw [ih, intWrap_succ]
    congr 1
    push_cast
    omega

theorem iterate_NextStep_fresh (config : Option PipelineConfig) (w : String) (now : Time)
    (k : Nat) (hk : (k : Int) ≤ maxInt) :
    (NextStep^[k] (NewExecutionContext config w now)).CurrentStep = (k : Int) ∧
    (NextStep^[k] (NewExecutionContext config w now)).PipelineConfig = config := by
  refine ⟨?_, iterate_NextStep_config _ k⟩
  rw [iterate_NextStep_cursor _ k (by show intWrap 0 = 0; decide)]
  show intWrap (0 + (k : Int)) = k
  rw [Int.zero_add]
  exact intWrap_of_range _ (by unfold minInt; omega) hk

theorem IsCompleted_iff_aux (ec : ExecutionContext) (h0 : 0 ≤ ec.CurrentStep) :
    ec.IsCompleted = .ok true ↔ ec.GetCurrentStep = .ok none := by
  cases hc : ec.PipelineConfig with
  | none => simp [IsCompleted_no_config ec hc, GetCurrentStep_no_config ec hc]
  | some pc =>
    rcases GetDefaultPipeline_cases pc with hg | ⟨pl, hg⟩
    · simp [IsCompleted_not_found ec pc hc hg, GetCurrentStep_not_found ec pc hc hg]
    · rw [IsCompleted_found ec pc pl hc hg]
      by_cases hle : (pl.len : Int) ≤ ec.CurrentStep
      · simp [hle, GetCurrentStep_past_end ec pc pl hc hg hle]
      · obtain ⟨sw, -, hget⟩ := GetCurrentStep_in_range ec pc pl hc hg h0 (by omega)
        simp [hle, hget]

/-- C19, as stated, fails: at the largest `int` the increment of `NextStep`
wraps, so the cursor becomes the smallest `int` and not one more. -/
theorem NextStep_wraps :
    lastCursor.CurrentStep = 9223372036854775807 ∧
    lastCursor.NextStep.CurrentStep = -9223372036854775808 ∧
    lastCursor.NextStep.CurrentStep ≠ lastCursor.CurrentStep + 1 := by
  have h1 : lastCursor.CurrentStep = 9223372036854775807 := by
    show maxInt = _
    unfold maxInt
    norm_num
  have h2 : lastCursor.NextStep.CurrentStep = -9223372036854775808 := by
    show intWrap (maxInt + 1) = _
    rw [intWrap_maxInt_succ]
    unfold minInt
    norm_num
  refine ⟨h1, h2, ?_⟩
  rw [h1, h2]
  omega

/-- C19, amended: for a cursor below the largest `int`, `NextStep` increases
`CurrentStep` by exactly one, without any check against the pipeline; at the
largest `int` the cursor wraps to the smallest one. In both cases no other
field changes, and the call always returns. -/
theorem NextStep_spec (ec : ExecutionContext) :
    (minInt ≤ ec.CurrentStep → ec.CurrentStep < maxInt →
      ec.NextStep.CurrentStep = ec.CurrentStep + 1) ∧
    (ec.CurrentStep = maxInt → ec.NextStep.CurrentStep = minInt) ∧
    ec.NextStep.PipelineConfig = ec.PipelineConfig ∧
    ec.NextStep.StepResults = ec.StepResults ∧
    ec.NextStep.Environment = ec.Environment ∧
    ec.NextStep.WorkingDir = ec.WorkingDir ∧
    ec.NextStep.StartTime = ec.StartTime ∧
    ec.NextStep.EndTime = ec.EndTime ∧
    ec.NextStep.Status = ec.Status ∧
    ec.NextStep.ErrorMessage = ec.ErrorMessage := by
  refine ⟨?_, ?_, rfl, rfl, rfl, rfl, rfl, rfl, rfl, rfl⟩
  · intro h0 h1
    show intWrap (ec.CurrentStep + 1) = _
    exact intWrap_of_range _ (by omega) (by omega)
  · intro h
    show intWrap (ec.CurrentStep + 1) = _
    rw [h]
    exact intWrap_maxInt_succ

/-- The instance of C19 (amended) for a cursor already past the last step of
the two-step document `twoSteps`. -/
theorem NextStep_spec_witness :
    ({ NewExecutionContext (some twoSteps) "" 0 with CurrentStep := 5 }).NextStep.CurrentStep
      = 6 :=
  (NextStep_spec { NewExecutionContext (some twoSteps) "" 0 with CurrentStep := 5 }).1
    (by decide) (by decide)

/-- C20, as stated, fails: after `2 ^ 63` calls of `NextStep` on a fresh
context over the two-step document `twoSteps` the cursor has wrapped to the
smallest `int`; `IsCompleted` is false and `GetCurrentStep` panics, although
the number of calls is past the number of steps. -/
theorem IsCompleted_after_wrap :
    (NextStep^[2 ^ 63] (NewExecutionContext (some twoSteps) "" 0)).CurrentStep = minInt ∧
    (NextStep^[2 ^ 63] (NewExecutionContext (some twoSteps) "" 0)).IsCompleted = .ok false ∧
    (NextStep^[2 ^ 63] (NewExecutionContext (some twoSteps) "" 0)).GetCurrentStep
      = .error "index out of range" ∧
    twoSteps.GetDefaultPipeline = (some (some [mkStep ["build"], mkStep ["test"]]), true) ∧
    2 ≤ 2 ^ 63 := by
  have hcur : (NextStep^[2 ^ 63] (NewExecutionContext (some twoSteps) "" 0)).CurrentStep
      = minInt := by
    rw [iterate_NextStep_cursor _ _ (by decide)]
    show intWrap (0 + ((2 ^ 63 : Nat) : Int)) = minInt
    unfold intWrap minInt
    norm_num
  have hcfg := iterate_NextStep_config (NewExecutionContext (some twoSteps) "" 0) (2 ^ 63)
  have hneg : (NextStep^[2 ^ 63] (NewExecutionContext (some twoSteps) "" 0)).CurrentStep < 0 := by
    rw [hcur]
    decide
  refine ⟨hcur, ?_, ?_, rfl, by norm_num⟩
  · rw [IsCompleted_found _ twoSteps _ hcfg rfl]
    have : ¬ ((Pipeline.len (some [mkStep ["build"], mkStep ["test"]]) : Int) ≤
        (NextStep^[2 ^ 63] (NewExecutionContext (some twoSteps) "" 0)).CurrentStep) := by
      have : (0 : Int) ≤ (Pipeline.len (some [mkStep ["build"], mkStep ["test"]]) : Int) :=
        Int.natCast_nonneg _
      omega
    simp only [this, decide_False]
  · exact GetCurrentStep_negative _ twoSteps _ hcfg rfl hneg

/-- C20, amended: for a context with `CurrentStep ≥ 0`, `IsCompleted` returns
true exactly when `GetCurrentStep` returns nothing. For a document whose
default pipeline has `n` steps, a fresh context after `k` calls of `NextStep`,
`k` not above the largest `int`, has `IsCompleted` true and `GetCurrentStep`
nothing exactly when `k ≥ n`. A context with no document or no default
pipeline is completed from the start. -/
theorem IsCompleted_iff_no_current_step :
    (∀ ec : ExecutionContext, 0 ≤ ec.CurrentStep →
      (ec.IsCompleted = .ok true ↔ ec.GetCurrentStep = .ok none)) ∧
    (∀ (pc : PipelineConfig) (p : Pipelines) (w : String) (now : Time) (k : Nat),
      pc.Pipelines = some p → (k : Int) ≤ maxInt →
      ((NextStep^[k] (NewExecutionContext (some pc) w now)).IsCompleted = .ok true
        ↔ p.Default.len ≤ k) ∧
      ((NextStep^[k] (NewExecutionContext (some pc) w now)).GetCurrentStep = .ok none
        ↔ p.Default.len ≤ k)) ∧
    (∀ ec : ExecutionContext,
      (ec.PipelineConfig = none ∨
        ∃ pc, ec.PipelineConfig = some pc ∧ (pc.GetDefaultPipeline).2 = false) →
      ec.IsCompleted = .ok true ∧ ec.GetCurrentStep = .ok none) := by
  refine ⟨IsCompleted_iff_aux, ?_, ?_⟩
  · intro pc p w now k hp hk
    obtain ⟨hcur, hcfg⟩ := iterate_NextStep_fresh (some pc) w now k hk
    have h0 : 0 ≤ (NextStep^[k] (NewExecutionContext (some pc) w now)).CurrentStep := by
      rw [hcur]
      exact Int.natCast_nonneg _
    have hfirst : (NextStep^[k] (NewExecutionContext (some pc) w now)).IsCompleted = .ok true
        ↔ p.Default.len ≤ k := by
      by_cases hlen : p.Default.len = 0
      · have hg : (pc.GetDefaultPipeline).2 = false := by
          simp [PipelineConfig.GetDefaultPipeline, hp, hlen]
        simp [IsCompleted_not_found _ pc hcfg hg, hlen]
      · have hg : pc.GetDefaultPipeline = (some p.Default, true) := by
          simp [PipelineConfig.GetDefaultPipeline, hp, hlen]
        rw [IsCompleted_found _ pc _ hcfg hg, hcur]
        simp
    exact ⟨hfirst, (IsCompleted_iff_aux _ h0).symm.trans hfirst⟩
  · intro ec h
    rcases h with h | ⟨pc, hc, hg⟩
    · exact ⟨IsCompleted_no_config ec h, GetCurrentStep_no_config ec h⟩
    · exact ⟨IsCompleted_not_found ec pc hc hg, GetCurrentStep_not_found ec pc hc hg⟩

/-- The instance of C20 (amended) for the two-step document `twoSteps`: after
one call of `NextStep` the context is not completed, after two it is. -/
theorem IsCompleted_iff_no_current_step_witness :
    (NextStep^[1] (NewExecutionContext (some twoSteps) "" 0)).IsCompleted ≠ .ok true ∧
    (NextStep^[2] (NewExecutionContext (some twoSteps) "" 0)).IsCompleted = .ok true ∧
    (NextStep^[2] (NewExecutionContext (some twoSteps) "" 0)).GetCurrentStep = .ok none := by
  have h1 := IsCompleted_iff_no_current_step.2.1 twoSteps _ "" 0 1 rfl (by decide)
  have h2 := IsCompleted_iff_no_current_step.2.1 twoSteps _ "" 0 2 rfl (by decide)
  refine ⟨?_, h2.1.2 (by decide), h2.2.2 (by decide)⟩
  intro h
  exact absurd (h1.1.1 h) (by decide)

/-! ## Duration -/

theorem timeSub_of_range (t u : Time) (h0 : minInt ≤ t - u) (h1 : t - u ≤ maxInt) :
    timeSub t u = t - u := by
  unfold timeSub
  rw [if_neg (not_lt.2 h1), if_neg (not_lt.2 h0)]

theorem timeSub_eq_clamp (t u : Time) : timeSub t u = max minInt (min maxInt (t - u)) := by
  unfold timeSub
  have hmm : minInt ≤ maxInt := by decide
  by_cases h1 : t - u > maxInt
  · rw [if_pos h1, min_eq_left (le_of_lt h1), max_eq_right hmm]
  · rw [if_neg h1, min_eq_right (not_lt.1 h1)]
    by_cases h2 : t - u < minInt
    · rw [if_pos h2, max_eq_left (le_of_lt h2)]
    · rw [if_neg h2, max_eq_right (not_lt.1 h2)]

theorem timeSub_mono (t t' u : Time) (h : t ≤ t') : timeSub t u ≤ timeSub t' u := by
  rw [timeSub_eq_clamp, timeSub_eq_clamp]
  exact max_le_max le_rfl (min_le_min le_rfl (sub_le_sub_right h u))

/-- C21, as stated, fails: a context that ended `10 ^ 19` nanoseconds after
it started reports the largest duration, not the difference, and so does a
context that has not ended when the clock is that far past its start. -/
theorem GetTotalDuration_clamped :
    longContext.StartTime = 0 ∧ longContext.EndTime = some (10 ^ 19) ∧
    longContext.GetTotalDuration 0 = 9223372036854775807 ∧
    longContext.GetTotalDuration 0 ≠ 10 ^ 19 - longContext.StartTime ∧
    zeroContext.EndTime = none ∧
    zeroContext.GetTotalDuration (10 ^ 19) = 9223372036854775807 ∧
    zeroContext.GetTotalDuration (10 ^ 19) ≠ 10 ^ 19 - zeroContext.StartTime := by
  have h1 : longContext.GetTotalDuration 0 = 9223372036854775807 := by
    show timeSub (10 ^ 19) 0 = _
    unfold timeSub maxInt minInt
    norm_num
  have h2 : zeroContext.GetTotalDuration (10 ^ 19) = 9223372036854775807 := by
    show timeSub (10 ^ 19) 0 = _
    unfold timeSub maxInt minInt
    norm_num
  refine ⟨rfl, rfl, h1, ?_, rfl, h2, ?_⟩
  · rw [h1]
    show (9223372036854775807 : Int) ≠ 10 ^ 19 - 0
    norm_num
  · rw [h2]
    show (9223372036854775807 : Int) ≠ 10 ^ 19 - 0
    norm_num

/-- C21, amended: when `EndTime` is set, `GetTotalDuration` is `EndTime` minus
`StartTime` clamped to the range of a duration, whatever the clock reads, and
it is the difference itself when that fits; when `EndTime` is nil it is `now`
minus `StartTime`, clamped in the same way, and non-decreasing in `now`. -/
theorem GetTotalDuration_spec (ec : ExecutionContext) (now : Time) :
    (∀ e, ec.EndTime = some e →
      (∀ now', ec.GetTotalDuration now = ec.GetTotalDuration now') ∧
      ec.GetTotalDuration now = max minInt (min maxInt (e - ec.StartTime)) ∧
      (minInt ≤ e - ec.StartTime → e - ec.StartTime ≤ maxInt →
        ec.GetTotalDuration now = e - ec.StartTime)) ∧
    (ec.EndTime = none →
      ec.GetTotalDuration now = max minInt (min maxInt (now - ec.StartTime)) ∧
      (minInt ≤ now - ec.StartTime → now - ec.StartTime ≤ maxInt →
        ec.GetTotalDuration now = now - ec.StartTime) ∧
      (∀ now', now ≤ now' → ec.GetTotalDuration now ≤ ec.GetTotalDuration now')) := by
  refine ⟨?_, ?_⟩
  · intro e he
    have hg : ∀ n, ec.GetTotalDuration n = timeSub e ec.StartTime := by
      intro n
      simp only [GetTotalDuration, he]
    refine ⟨fun now' => (hg now).trans (hg now').symm, ?_, ?_⟩
    · rw [hg]
      exact timeSub_eq_clamp _ _
    · intro h0 h1
      rw [hg]
      exact timeSub_of_range _ _ h0 h1
  · intro he
    have hg : ∀ n, ec.GetTotalDuration n = timeSub n ec.StartTime := by
      intro n
      simp only [GetTotalDuration, he]
    refine ⟨?_, ?_, ?_⟩
    · rw [hg]
      exact timeSub_eq_clamp _ _
    · intro h0 h1
      rw [hg]
      exact timeSub_of_range _ _ h0 h1
    · intro now' h
      rw [hg, hg]
      exact timeSub_mono _ _ _ h

/-- The instance of C21 (amended) from the tests: a context that ended thirty
minutes after it started, read one hour after the start. -/
theorem GetTotalDuration_spec_witness :
    ({ zeroContext with StartTime := 1000, EndTime := some (1000 + 1800000000000) }
      : ExecutionContext).GetTotalDuration (1000 + 3600000000000) = 1800000000000 := by
  have h := ((GetTotalDuration_spec
    { zeroContext with StartTime := 1000, EndTime := some (1000 + 1800000000000) }
    (1000 + 3600000000000)).1 (1000 + 1800000000000) rfl).2.2 (by decide) (by decide)
  rw [h]
  decide

/-! ## A new context and its environment -/

/-- C23: `NewExecutionContext c w` is bound to `c`, with the cursor 0, an
empty log, an empty map that is not nil, the working directory `w`, the status
pending, no end time and an empty error message. -/
theorem NewExecutionContext_spec (c : Option PipelineConfig) (w : String) (now : Time) :
    (NewExecutionContext c w now).PipelineConfig = c ∧
    (NewExecutionContext c w now).CurrentStep = 0 ∧
    (NewExecutionContext c w now).StepResults = [] ∧
    (NewExecutionContext c w now).Environment = some [] ∧
    (NewExecutionContext c w now).Environment ≠ none ∧
    (NewExecutionContext c w now).WorkingDir = w ∧
    (NewExecutionContext c w now).Status = ExecutionStatusPending ∧
    (NewExecutionContext c w now).EndTime = none ∧
    (NewExecutionContext c w now).ErrorMessage = "" ∧
    (NewExecutionContext c w now).StartTime = now := by
  refine ⟨rfl, rfl, rfl, rfl, ?_, rfl, rfl, rfl, rfl, rfl⟩
  intro h
  cases h

theorem find_map_same (l : List (String × String)) (k v : String)
    (hany : l.any (fun e => e.1 == k) = true) :
    ((l.map (fun e => if e.1 == k then (k, v) else e)).find? (fun e => e.1 == k)).map Prod.snd
      = some v := by
  induction l with
  | nil => simp at hany
  | cons a l ih =>
    by_cases ha : a.1 = k
    · simp [List.find?_cons, ha]
    · have hany' : l.any (fun e => e.1 == k) = true := by
        simpa [List.any_cons, ha] using hany
      simpa [List.find?_cons, ha] using ih hany'

theorem find_map_other (l : List (String × String)) (k k' v : String) (h : k' ≠ k) :
    ((l.map (fun e => if e.1 == k then (k, v) else e)).find? (fun e => e.1 == k')).map Prod.snd
      = (l.find? (fun e => e.1 == k')).map Prod.snd := by
  induction l with
  | nil => rfl
  | cons a l ih =>
    simp only [List.map_cons, List.find?_cons]
    by_cases ha : a.1 = k
    · have e1 : (if (a.1 == k) = true then (k, v) else a) = (k, v) := by simp [ha]
      have e2 : (k == k') = false := by simpa using Ne.symm h
      have e3 : (a.1 == k') = false := by
        rw [ha]
        exact e2
      rw [e1]
      simp only [e2, e3]
      exact ih
    · have e1 : (if (a.1 == k) = true then (k, v) else a) = a := by simp [ha]
      rw [e1]
      cases (a.1 == k')
      · exact ih
      · rfl

theorem find_assignEntry_same (l : List (String × String)) (k v : String) :
    ((assignEntry l k v).find? (fun e => e.1 == k)).map Prod.snd = some v := by
  unfold assignEntry
  by_cases hany : l.any (fun e => e.1 == k) = true
  · rw [if_pos hany]
    exact find_map_same l k v hany
  · rw [if_neg hany]
    have hnone : l.find? (fun e => e.1 == k) = none := by
      rw [List.find?_eq_none]
      intro x hx hxk
      exact hany (List.any_eq_true.2 ⟨x, hx, hxk⟩)
    simp [List.find?_append, hnone]

theorem find_assignEntry_other (l : List (String × String)) (k k' v : String) (h : k' ≠ k) :
    ((assignEntry l k v).find? (fun e => e.1 == k')).map Prod.snd
      = (l.find? (fun e => e.1 == k')).map Prod.snd := by
  unfold assignEntry
  by_cases hany : l.any (fun e => e.1 == k) = true
  · rw [if_pos hany]
    exact find_map_other l k k' v h
  · rw [if_neg hany]
    cases hf : l.find? (fun e => e.1 == k') with
    | none => simp [List.find?_append, hf, Ne.symm h]
    | some x => simp [List.find?_append, hf]

/-- C24, as stated, fails: on a context whose `Environment` is the nil map,
as in the zero value of the struct, `SetEnvironmentVariable` panics. -/
theorem SetEnvironmentVariable_nil_map :
    zeroContext.Environment = none ∧
    zeroContext.SetEnvironmentVariable "TEST_VAR" "test_value"
      = .error "assignment to entry in nil map" :=
  ⟨rfl, rfl⟩

/-- C24, amended: on a context whose `Environment` is not nil,
`SetEnvironmentVariable k v` returns, after it `GetEnvironmentVariable k`
returns `v` and found, and `GetEnvironmentVariable` of another key returns
what it returned before; on a fresh context every key is not found. -/
theorem Environment_set_get (ec : ExecutionContext) (k k' v : String) :
    (ec.Environment ≠ none →
      ∃ ec', ec.SetEnvironmentVariable k v = .ok ec' ∧
        ec'.GetEnvironmentVariable k = (v, true) ∧
        (k' ≠ k → ec'.GetEnvironmentVariable k' = ec.GetEnvironmentVariable k')) ∧
    (∀ (c : Option PipelineConfig) (w : String) (now : Time),
      (NewExecutionContext c w now).GetEnvironmentVariable k = ("", false)) := by
  refine ⟨?_, fun _ _ _ => rfl⟩
  intro hne
  cases henv : ec.Environment with
  | none => exact absurd henv hne
  | some l =>
    refine ⟨{ ec with Environment := some (assignEntry l k v) }, ?_, ?_, ?_⟩
    · simp only [SetEnvironmentVariable, henv]
    · have := find_assignEntry_same l k v
      simp only [GetEnvironmentVariable, GoMap.lookup, GoMap.entries, this]
    · intro hk
      have := find_assignEntry_other l k k' v hk
      simp only [GetEnvironmentVariable, GoMap.lookup, GoMap.entries, this, henv]

/-- The instance of C24 (amended) from the tests: `TEST_VAR` is found after it
is set on a fresh context, and `NON_EXISTENT` is not. -/
theorem Environment_set_get_witness :
    ∃ ec', (NewExecutionContext none "" 0).SetEnvironmentVariable "TEST_VAR" "test_value"
        = .ok ec' ∧
      ec'.GetEnvironmentVariable "TEST_VAR" = ("test_value", true) ∧
      ec'.GetEnvironmentVariable "NON_EXISTENT" = ("", false) := by
  obtain ⟨ec', h1, h2, h3⟩ := (Environment_set_get (NewExecutionContext none "" 0)
    "TEST_VAR" "NON_EXISTENT" "test_value").1 (by decide)
  exact ⟨ec', h1, h2, (h3 (by decide)).trans rfl⟩

/-! ## Driving a pipeline -/

theorem driveRounds_spec (rs : List StepResult) (ec : ExecutionContext)
    (h0 : 0 ≤ ec.CurrentStep) (h1 : ec.CurrentStep + (rs.length : Int) ≤ maxInt) :
    (driveRounds ec rs).CurrentStep = ec.CurrentStep + (rs.length : Int) ∧
    (driveRounds ec rs).StepResults = ec.StepResults ++ rs ∧
    (driveRounds ec rs).PipelineConfig = ec.PipelineConfig := by
  induction rs generalizing ec with
  | nil => simp [driveRounds]
  | cons r rs ih =>
    have hlen : ((r :: rs).length : Int) = (rs.length : Int) + 1 := by
      simp
    rw [hlen] at h1
    have hc : (driveRound ec r).CurrentStep = ec.CurrentStep + 1 := by
      show intWrap (ec.CurrentStep + 1) = _
      exact intWrap_of_range _ (by unfold minInt; omega) (by omega)
    have hstep : driveRounds ec (r :: rs) = driveRounds (driveRound ec r) rs := rfl
    obtain ⟨i1, i2, i3⟩ := ih (driveRound ec r) (by rw [hc]; omega) (by rw [hc]; omega)
    rw [hstep, i1, i2, i3, hc, hlen]
    refine ⟨by omega, ?_, rfl⟩
    show (ec.StepResults ++ [r]) ++ rs = ec.StepResults ++ r :: rs
    simp

/-- C22: for a validated document whose default pipeline has `n ≥ 1` steps, a
fresh context is started, driven through `n` rounds that each record a result
and advance, and completed. In round `i` `GetCurrentStep` returns step `i` of
the default pipeline; at the end `StepResults` holds the `n` results in the
order of recording, `CurrentStep` is `n`, `IsCompleted` is true and the status
is completed. -/
theorem drive_full_cycle (pc : PipelineConfig) (p : Pipelines) (w : String) (t0 t1 t2 : Time)
    (rs : List StepResult)
    (hv : pc.Validate = .ok ()) (hp : pc.Pipelines = some p) (hn : 1 ≤ p.Default.len)
    (hmax : (p.Default.len : Int) ≤ maxInt) (hrs : rs.length = p.Default.len) :
    (∀ i, i < p.Default.len → ∃ sw, p.Default.steps[i]? = some sw ∧
      (driveRounds ((NewExecutionContext (some pc) w t0).StartExecution t1)
        (rs.take i)).GetCurrentStep = .ok (some sw.Step)) ∧
    ((driveRounds ((NewExecutionContext (some pc) w t0).StartExecution t1)
      rs).CompleteExecution t2).StepResults = rs ∧
    ((driveRounds ((NewExecutionContext (some pc) w t0).StartExecution t1)
      rs).CompleteExecution t2).StepResults.length = p.Default.len ∧
    ((driveRounds ((NewExecutionContext (some pc) w t0).StartExecution t1)
      rs).CompleteExecution t2).CurrentStep = (p.Default.len : Int) ∧
    ((driveRounds ((NewExecutionContext (some pc) w t0).StartExecution t1)
      rs).CompleteExecution t2).IsCompleted = .ok true ∧
    ((driveRounds ((NewExecutionContext (some pc) w t0).StartExecution t1)
      rs).CompleteExecution t2).Status = ExecutionStatusCompleted := by
  have hne : p.Default.len ≠ 0 := by omega
  have hg : pc.GetDefaultPipeline = (some p.Default, true) := by
    simp [PipelineConfig.GetDefaultPipeline, hp, hne]
  have _hvalid := hv
  refine ⟨?_, ?_⟩
  · intro i hi
    have hlen : (rs.take i).length = i := by
      rw [List.length_take, hrs]
      omega
    obtain ⟨c1, -, c3⟩ := driveRounds_spec (rs.take i)
      ((NewExecutionContext (some pc) w t0).StartExecution t1) (le_refl _)
      (by rw [hlen]; show (0 : Int) + (i : Int) ≤ maxInt; omega)
    rw [hlen] at c1
    have hcur : (driveRounds ((NewExecutionContext (some pc) w t0).StartExecution t1)
        (rs.take i)).CurrentStep = (i : Int) := by
      rw [c1]
      show (0 : Int) + (i : Int) = i
      omega
    obtain ⟨sw, hsw, hget⟩ := GetCurrentStep_in_range _ pc p.Default c3 hg
      (by rw [hcur]; omega) (by rw [hcur]; omega)
    rw [hcur] at hsw
    exact ⟨sw, by simpa using hsw, hget⟩
  · obtain ⟨c1, c2, c3⟩ := driveRounds_spec rs
      ((NewExecutionContext (some pc) w t0).StartExecution t1) (le_refl _)
      (by rw [hrs]; show (0 : Int) + (p.Default.len : Int) ≤ maxInt; omega)
    have hcur : (driveRounds ((NewExecutionContext (some pc) w t0).StartExecution t1)
        rs).CurrentStep = (p.Default.len : Int) := by
      rw [c1, hrs]
      show (0 : Int) + (p.Default.len : Int) = _
      omega
    have hres : (driveRounds ((NewExecutionContext (some pc) w t0).StartExecution t1)
        rs).StepResults = rs := by
      rw [c2]
      rfl
    refine ⟨hres, ?_, hcur, ?_, rfl⟩
    · show (driveRounds ((NewExecutionContext (some pc) w t0).StartExecution t1)
        rs).StepResults.length = _
      rw [hres, hrs]
    · have hcfg : ((driveRounds ((NewExecutionContext (some pc) w t0).StartExecution t1)
          rs).CompleteExecution t2).PipelineConfig = some pc := c3
      have hcur2 : ((driveRounds ((NewExecutionContext (some pc) w t0).StartExecution t1)
          rs).CompleteExecution t2).CurrentStep = (p.Default.len : Int) := hcur
      rw [IsCompleted_found _ pc p.Default hcfg hg, hcur2]
      simp

/-- The instance of C22 for the one-step document of the end-to-end
scenario. -/
theorem drive_full_cycle_witness :
    ((driveRounds ((NewExecutionContext (some echoHi) "" 0).StartExecution 1)
      [mkResult 0 "echo"]).CompleteExecution 2).StepResults.length = 1 ∧
    ((driveRounds ((NewExecutionContext (some echoHi) "" 0).StartExecution 1)
      [mkResult 0 "echo"]).CompleteExecution 2).Status = ExecutionStatusCompleted := by
  have h := drive_full_cycle echoHi ⟨some [mkStep ["echo hi"]], none, none, none, none⟩ "" 0 1 2
    [mkResult 0 "echo"] (by decide) rfl (by decide) (by decide) rfl
  exact ⟨h.2.2.1, h.2.2.2.2.2⟩

/-! ## Sequences of calls -/

theorem apply_StepResults (op : Operation) (ec ec' : ExecutionContext)
    (h : op.apply ec = .ok ec') : ec.StepResults <+: ec'.StepResults := by
  cases op with
  | start now =>
    cases h
    exact List.prefix_refl _
  | complete now =>
    cases h
    exact List.prefix_refl _
  | fail errorMsg now =>
    cases h
    exact List.prefix_refl _
  | addResult result =>
    cases h
    exact List.prefix_append _ _
  | next =>
    cases h
    exact List.prefix_refl _
  | setEnv key value =>
    simp only [Operation.apply, SetEnvironmentVariable] at h
    cases henv : ec.Environment with
    | none => simp [henv] at h
    | some l =>
      simp only [henv, Except.ok.injEq] at h
      subst h
      exact List.prefix_refl _

theorem run_StepResults (ops : List Operation) (ec ec' : ExecutionContext)
    (h : runOperations ops ec = .ok ec') : ec.StepResults <+: ec'.StepResults := by
  induction ops generalizing ec with
  | nil =>
    cases h
    exact List.prefix_refl _
  | cons op rest ih =>
    simp only [runOperations] at h
    cases hop : op.apply ec with
    | error err => simp [hop] at h
    | ok ec1 =>
      simp only [hop] at h
      exact (apply_StepResults op ec ec1 hop).trans (ih ec1 h)

/-- C26: the log of step results is append-only. For every context and every
call of the six operations that returns, the `StepResults` before the call is
a prefix of the `StepResults` after it, and so it is over any sequence of
calls; every call returns, but for `SetEnvironmentVariable` on a nil map. -/
theorem StepResults_append_only :
    (∀ (op : Operation) (ec ec' : ExecutionContext), op.apply ec = .ok ec' →
      ec.StepResults <+: ec'.StepResults) ∧
    (∀ (ops : List Operation) (ec ec' : ExecutionContext), runOperations ops ec = .ok ec' →
      ec.StepResults <+: ec'.StepResults) ∧
    (∀ (op : Operation) (ec : ExecutionContext),
      ((∀ k v, op ≠ .setEnv k v) ∨ ec.Environment ≠ none) → ∃ ec', op.apply ec = .ok ec') := by
  refine ⟨apply_StepResults, run_StepResults, ?_⟩
  intro op ec h
  cases op with
  | start now => exact ⟨_, rfl⟩
  | complete now => exact ⟨_, rfl⟩
  | fail errorMsg now => exact ⟨_, rfl⟩
  | addResult result => exact ⟨_, rfl⟩
  | next => exact ⟨_, rfl⟩
  | setEnv key value =>
    rcases h with h | h
    · exact absurd rfl (h key value)
    · cases henv : ec.Environment with
      | none => exact absurd henv h
      | some l =>
        refine ⟨{ ec with Environment := some (assignEntry l key value) }, ?_⟩
        simp only [Operation.apply, SetEnvironmentVariable, henv]

/-- The instance of C26 for a recorded result followed by a failure: the
result stays first in the log. -/
theorem StepResults_append_only_witness :
    ∃ ec', runOperations [.addResult (mkResult 0 "build"), .next, .fail "boom" 9,
        .addResult (mkResult 1 "test")] (NewExecutionContext (some twoSteps) "" 0) = .ok ec' ∧
      [mkResult 0 "build"] <+: ec'.StepResults :=
  ⟨_, rfl, StepResults_append_only.2.1
    [.next, .fail "boom" 9, .addResult (mkResult 1 "test")]
    ((NewExecutionContext (some twoSteps) "" 0).AddStepResult (mkResult 0 "build")) _ rfl⟩

/-! ## The cursor over sequences of calls -/

theorem intWrap_add (x y : Int) : intWrap (intWrap x + y) = intWrap (x + y) := by
  unfold intWrap
  omega

theorem nextCalls_cons_next (ops : List Operation) :
    nextCalls (Operation.next :: ops) = nextCalls ops + 1 := by
  simp [nextCalls]

theorem nextCalls_cons_other (op : Operation) (ops : List Operation) (h : op ≠ Operation.next) :
    nextCalls (op :: ops) = nextCalls ops := by
  simp [nextCalls, h]

theorem nextCalls_replicate (k : Nat) : nextCalls (List.replicate k Operation.next) = k := by
  induction k with
  | zero => rfl
  | succ k ih => rw [List.replicate_succ, nextCalls_cons_next, ih]

theorem apply_fields (op : Operation) (ec : ExecutionContext) (henv : ec.Environment ≠ none) :
    ∃ ec', op.apply ec = .ok ec' ∧ ec'.Environment ≠ none ∧
      ec'.PipelineConfig = ec.PipelineConfig ∧
      ec'.CurrentStep = if op = Operation.next then intWrap (ec.CurrentStep + 1)
        else ec.CurrentStep := by
  cases op with
  | start now => exact ⟨_, rfl, henv, rfl, rfl⟩
  | complete now => exact ⟨_, rfl, henv, rfl, rfl⟩
  | fail errorMsg now => exact ⟨_, rfl, henv, rfl, rfl⟩
  | addResult result => exact ⟨_, rfl, henv, rfl, rfl⟩
  | next => exact ⟨_, rfl, henv, rfl, rfl⟩
  | setEnv key value =>
    cases he : ec.Environment with
    | none => exact absurd he henv
    | some l =>
      refine ⟨{ ec with Environment := some (assignEntry l key value) }, ?_, ?_, rfl, rfl⟩
      · simp only [Operation.apply, SetEnvironmentVariable, he]
      · intro h
        cases h

theorem run_cursor (ops : List Operation) (ec : ExecutionContext)
    (henv : ec.Environment ≠ none) (hc : intWrap ec.CurrentStep = ec.CurrentStep) :
    ∃ ec', runOperations ops ec = .ok ec' ∧
      ec'.CurrentStep = intWrap (ec.CurrentStep + (nextCalls ops : Int)) ∧
      ec'.PipelineConfig = ec.PipelineConfig := by
  induction ops generalizing ec with
  | nil => exact ⟨ec, rfl, by simpa [nextCalls] using hc.symm, rfl⟩
  | cons op rest ih =>
    obtain ⟨ec1, h1, henv1, hcfg1, hcur1⟩ := apply_fields op ec henv
    by_cases hop : op = Operation.next
    · rw [if_pos hop] at hcur1
      have hc1 : intWrap ec1.CurrentStep = ec1.CurrentStep := by
        rw [hcur1]
        unfold intWrap
        omega
      obtain ⟨ec', h2, hcur2, hcfg2⟩ := ih ec1 henv1 hc1
      refine ⟨ec', ?_, ?_, hcfg2.trans hcfg1⟩
      · simp only [runOperations, h1, h2]
      · rw [hcur2, hcur1, intWrap_add, hop, nextCalls_cons_next]
        congr 1
        push_cast
        omega
    · rw [if_neg hop] at hcur1
      obtain ⟨ec', h2, hcur2, hcfg2⟩ := ih ec1 henv1 (by rw [hcur1]; exact hc)
      refine ⟨ec', ?_, ?_, hcfg2.trans hcfg1⟩
      · simp only [runOperations, h1, h2]
      · rw [hcur2, hcur1, nextCalls_cons_other op rest hop]

theorem GetCurrentStep_ok_of_nonneg (ec : ExecutionContext) (h0 : 0 ≤ ec.CurrentStep) :
    ∃ r, ec.GetCurrentStep = .ok r := by
  cases hc : ec.PipelineConfig with
  | none => exact ⟨none, GetCurrentStep_no_config ec hc⟩
  | some pc =>
    rcases GetDefaultPipeline_cases pc with hg | ⟨pl, hg⟩
    · exact ⟨none, GetCurrentStep_not_found ec pc hc hg⟩
    · by_cases hle : (pl.len : Int) ≤ ec.CurrentStep
      · exact ⟨none, GetCurrentStep_past_end ec pc pl hc hg hle⟩
      · obtain ⟨sw, -, hget⟩ := GetCurrentStep_in_range ec pc pl hc hg h0 (by omega)
        exact ⟨some sw.Step, hget⟩

/-- C29, as stated, fails. After one call of `NextStep` on a fresh context
over the one-step document `echoHi` the cursor is 1, the length of the default
pipeline, and `GetCurrentStep` takes its out-of-range case and returns
nothing. After `2 ^ 63` calls of `NextStep` over `twoSteps` the cursor has
wrapped below zero and `GetCurrentStep` panics on the index. -/
theorem cursor_leaves_bounds :
    (∃ ec, runOperations [.next] (NewExecutionContext (some echoHi) "" 0) = .ok ec ∧
      ec.CurrentStep = 1 ∧
      echoHi.GetDefaultPipeline = (some (some [mkStep ["echo hi"]]), true) ∧
      ¬ (ec.CurrentStep < (Pipeline.len (some [mkStep ["echo hi"]]) : Int)) ∧
      ec.GetCurrentStep = .ok none) ∧
    (∃ ec, runOperations (List.replicate (2 ^ 63) .next)
        (NewExecutionContext (some twoSteps) "" 0) = .ok ec ∧
      ec.CurrentStep < 0 ∧ ec.GetCurrentStep = .error "index out of range") := by
  refine ⟨⟨_, rfl, by decide, rfl, by decide, by decide⟩, ?_⟩
  obtain ⟨ec, hrun, hcur, hcfg⟩ := run_cursor (List.replicate (2 ^ 63) .next)
    (NewExecutionContext (some twoSteps) "" 0) (by intro h; cases h)
    (by show intWrap 0 = 0; decide)
  rw [nextCalls_replicate] at hcur
  have hneg : ec.CurrentStep < 0 := by
    rw [hcur]
    show intWrap (0 + ((2 ^ 63 : Nat) : Int)) < 0
    unfold intWrap
    norm_num
  exact ⟨ec, hrun, hneg, GetCurrentStep_negative ec twoSteps _ hcfg rfl hneg⟩

/-- C29, amended: every sequence of calls on a fresh context returns, and
while the `NextStep` calls made are at most the largest `int` in number,
`CurrentStep` is their number and not negative. The cursor may reach or pass
the length of the default pipeline, where `GetCurrentStep` returns nothing;
the index expression is evaluated within bounds only, so `GetCurrentStep`
does not panic. -/
theorem reachable_cursor (c : Option PipelineConfig) (w : String) (now : Time)
    (ops : List Operation) :
    ∃ ec, runOperations ops (NewExecutionContext c w now) = .ok ec ∧
      ((nextCalls ops : Int) ≤ maxInt →
        ec.CurrentStep = (nextCalls ops : Int) ∧ 0 ≤ ec.CurrentStep ∧
        (∃ r, ec.GetCurrentStep = .ok r) ∧
        (∀ pc pl, ec.PipelineConfig = some pc → pc.GetDefaultPipeline = (some pl, true) →
          (pl.len : Int) ≤ ec.CurrentStep → ec.GetCurrentStep = .ok none)) := by
  obtain ⟨ec, hrun, hcur, -⟩ := run_cursor ops (NewExecutionContext c w now)
    (by intro h; cases h) (by show intWrap 0 = 0; decide)
  refine ⟨ec, hrun, ?_⟩
  intro hle
  have hc : ec.CurrentStep = (nextCalls ops : Int) := by
    rw [hcur]
    show intWrap (0 + (nextCalls ops : Int)) = _
    rw [Int.zero_add]
    exact intWrap_of_range _ (by unfold minInt; omega) hle
  have h0 : 0 ≤ ec.CurrentStep := by
    rw [hc]
    exact Int.natCast_nonneg _
  exact ⟨hc, h0, GetCurrentStep_ok_of_nonneg ec h0, GetCurrentStep_past_end ec⟩

/-- The instance of C29 (amended) for a run over `twoSteps` with two calls of
`NextStep` among other calls. -/
theorem reachable_cursor_witness :
    ∃ ec, runOperations [.start 1, .next, .setEnv "CI" "true", .next, .complete 2]
        (NewExecutionContext (some twoSteps) "" 0) = .ok ec ∧
      ec.CurrentStep = 2 ∧ ∃ r, ec.GetCurrentStep = .ok r := by
  obtain ⟨ec, hrun, h⟩ := reachable_cursor (some twoSteps) "" 0
    [.start 1, .next, .setEnv "CI" "true", .next, .complete 2]
  obtain ⟨hc, -, hr, -⟩ := h (by decide)
  exact ⟨ec, hrun, hc.trans (by decide), hr⟩

/-! ## Acceptance and the earliest invalid channel -/

theorem exists_first_invalid (l : List (String × Pipeline))
    (h : ∃ e ∈ l, ¬ e.2.WellFormed) :
    ∃ pre e post, l = pre ++ e :: post ∧ (∀ x ∈ pre, x.2.WellFormed) ∧ ¬ e.2.WellFormed := by
  induction l with
  | nil =>
    obtain ⟨e, he, -⟩ := h
    simp at he
  | cons a l ih =>
    by_cases ha : a.2.WellFormed
    · obtain ⟨e, he, hbad⟩ := h
      have hel : e ∈ l := by
        rcases List.mem_cons.1 he with h1 | h1
        · rw [h1] at hbad
          exact absurd ha hbad
        · exact h1
      obtain ⟨pre, e', post, hl, hpre, he'⟩ := ih ⟨e, hel, hbad⟩
      refine ⟨a :: pre, e', post, by rw [hl]; rfl, ?_, he'⟩
      intro x hx
      rcases List.mem_cons.1 hx with h1 | h1
      · rw [h1]
        exact ha
      · exact hpre x h1
    · exact ⟨[], a, l, rfl, by simp, ha⟩

theorem checked_split (p : Pipelines) (i : Nat) (hi : i ≤ 4) :
    ∃ A B, p.checked = A ++ (p.checkedIn i ++ B) ∧
      ∀ e ∈ A, ∃ j, j < i ∧ e ∈ p.checkedIn j := by
  have h0 : p.checked = p.checkedIn 0 ++ p.checkedIn 1 ++ p.checkedIn 2 ++ p.checkedIn 3
      ++ p.checkedIn 4 := rfl
  rw [h0]
  match i, hi with
  | 0, _ =>
    refine ⟨[], p.checkedIn 1 ++ p.checkedIn 2 ++ p.checkedIn 3 ++ p.checkedIn 4, ?_, ?_⟩
    · simp only [List.nil_append, List.append_assoc]
    · intro e he
      simp at he
  | 1, _ =>
    refine ⟨p.checkedIn 0, p.checkedIn 2 ++ p.checkedIn 3 ++ p.checkedIn 4, ?_, ?_⟩
    · simp only [List.append_assoc]
    · intro e he
      exact ⟨0, by omega, he⟩
  | 2, _ =>
    refine ⟨p.checkedIn 0 ++ p.checkedIn 1, p.checkedIn 3 ++ p.checkedIn 4, ?_, ?_⟩
    · simp only [List.append_assoc]
    · intro e he
      rcases List.mem_append.1 he with h | h
      · exact ⟨0, by omega, h⟩
      · exact ⟨1, by omega, h⟩
  | 3, _ =>
    refine ⟨p.checkedIn 0 ++ p.checkedIn 1 ++ p.checkedIn 2, p.checkedIn 4, ?_, ?_⟩
    · simp only [List.append_assoc]
    · intro e he
      rcases List.mem_append.1 he with h | h
      · rcases List.mem_append.1 h with h | h
        · exact ⟨0, by omega, h⟩
        · exact ⟨1, by omega, h⟩
      · exact ⟨2, by omega, h⟩
  | 4, _ =>
    refine ⟨p.checkedIn 0 ++ p.checkedIn 1 ++ p.checkedIn 2 ++ p.checkedIn 3, [], ?_, ?_⟩
    · simp only [List.append_nil]
    · intro e he
      rcases List.mem_append.1 he with h | h
      · rcases List.mem_append.1 h with h | h
        · rcases List.mem_append.1 h with h | h
          · exact ⟨0, by omega, h⟩
          · exact ⟨1, by omega, h⟩
        · exact ⟨2, by omega, h⟩
      · exact ⟨3, by omega, h⟩

theorem checkedIn_large (p : Pipelines) (i : Nat) (hi : 4 < i) : p.checkedIn i = [] := by
  match i, hi with
  | i + 5, _ => rfl

theorem Validate_earliest (pc : PipelineConfig) (p : Pipelines) (i : Nat)
    (hp : pc.Pipelines = some p)
    (hpre : ∀ j, j < i → ∀ e ∈ p.checkedIn j, e.2.WellFormed)
    (hbad : ∃ e ∈ p.checkedIn i, ¬ e.2.WellFormed) :
    ∃ e ∈ p.checkedIn i, ¬ e.2.WellFormed ∧ pc.Validate = pc.validatePipeline e.1 e.2 ∧
      ∃ msg, pc.Validate = .error msg := by
  have hi : i ≤ 4 := by
    by_contra hgt
    obtain ⟨e, he, -⟩ := hbad
    rw [checkedIn_large p i (by omega)] at he
    simp at he
  obtain ⟨A, B, hsplit, hA⟩ := checked_split p i hi
  obtain ⟨pre, e, post, hl, hwf, he⟩ := exists_first_invalid (p.checkedIn i) hbad
  have hmem : e ∈ p.checkedIn i := by
    rw [hl]
    simp
  have hval : pc.Validate = pc.validatePipeline e.1 e.2 := by
    rw [Validate_eq_checked pc p hp, hsplit,
      rangeValidate_append_wf pc "" A _ (fun x hx => by
        obtain ⟨j, hj, hxj⟩ := hA x hx
        exact hpre j hj x hxj),
      hl, List.append_assoc, List.cons_append,
      rangeValidate_first pc "" e.1 e.2 pre (post ++ B) hwf he, String.empty_append]
    obtain ⟨msg, hmsg⟩ := validatePipeline_error_of_not_wf pc e.1 e.2 he
    rw [hmsg]
  obtain ⟨msg, hmsg⟩ := validatePipeline_error_of_not_wf pc e.1 e.2 he
  exact ⟨e, hmem, he, hval, msg, hval.trans hmsg⟩

theorem checkedIn_perm (p p' : Pipelines) (h : p.Reorder p') (i : Nat) :
    (p.checkedIn i).Perm (p'.checkedIn i) := by
  obtain ⟨hD, hB, hR, hC, hT⟩ := h
  match i with
  | 0 =>
    show List.Perm (match p.Default with
      | none => []
      | some l => [("default", some l)]) (match p'.Default with
      | none => []
      | some l => [("default", some l)])
    rw [hD]
  | 1 => exact hB.2.map _
  | 2 => exact hR.2.map _
  | 3 => exact hC.2.map _
  | 4 => exact hT.2.map _
  | i + 5 => exact List.Perm.refl _

theorem Except_error_iff_ne_ok (r : Except String Unit) :
    (∃ msg, r = .error msg) ↔ r ≠ .ok () := by
  cases r with
  | error msg => simp
  | ok u => simp

theorem SameMap_symm {V : Type} (m m' : GoMap V) (h : m.SameMap m') : m'.SameMap m :=
  ⟨h.1.symm, h.2.symm⟩

theorem Reorder_symm (pc pc' : PipelineConfig) (h : pc.Reorder pc') : pc'.Reorder pc := by
  obtain ⟨h1, h2, h3, h4, hm⟩ := h
  refine ⟨h1.symm, h2.symm, h3.symm, h4.symm, ?_⟩
  cases hp : pc.Pipelines with
  | none =>
    cases hp' : pc'.Pipelines with
    | none => trivial
    | some p' => simp [hp, hp'] at hm
  | some p =>
    cases hp' : pc'.Pipelines with
    | none => simp [hp, hp'] at hm
    | some p' =>
      simp only [hp, hp'] at hm
      obtain ⟨hD, hB, hR, hC, hT⟩ := hm
      exact ⟨hD.symm, SameMap_symm _ _ hB, SameMap_symm _ _ hR, SameMap_symm _ _ hC,
        SameMap_symm _ _ hT⟩

theorem Reorder_pipelines (pc pc' : PipelineConfig) (h : pc.Reorder pc') :
    (pc.Pipelines = none ∧ pc'.Pipelines = none) ∨
      ∃ p p', pc.Pipelines = some p ∧ pc'.Pipelines = some p' ∧ p.Reorder p' := by
  obtain ⟨-, -, -, -, hm⟩ := h
  cases hp : pc.Pipelines with
  | none =>
    cases hp' : pc'.Pipelines with
    | none => exact Or.inl ⟨rfl, rfl⟩
    | some p' => simp [hp, hp'] at hm
  | some p =>
    cases hp' : pc'.Pipelines with
    | none => simp [hp, hp'] at hm
    | some p' =>
      simp only [hp, hp'] at hm
      exact Or.inr ⟨p, p', rfl, rfl, hm⟩

theorem mem_checked_iff (p : Pipelines) (e : String × Pipeline) :
    e ∈ p.checked ↔ ∃ i, e ∈ p.checkedIn i := by
  have h0 : p.checked = p.checkedIn 0 ++ p.checkedIn 1 ++ p.checkedIn 2 ++ p.checkedIn 3
      ++ p.checkedIn 4 := rfl
  rw [h0]
  simp only [List.mem_append]
  constructor
  · rintro ((((h | h) | h) | h) | h)
    · exact ⟨0, h⟩
    · exact ⟨1, h⟩
    · exact ⟨2, h⟩
    · exact ⟨3, h⟩
    · exact ⟨4, h⟩
  · rintro ⟨i, hi⟩
    match i, hi with
    | 0, hi => exact Or.inl (Or.inl (Or.inl (Or.inl hi)))
    | 1, hi => exact Or.inl (Or.inl (Or.inl (Or.inr hi)))
    | 2, hi => exact Or.inl (Or.inl (Or.inr hi))
    | 3, hi => exact Or.inl (Or.inr hi)
    | 4, hi => exact Or.inr hi
    | i + 5, hi =>
      rw [checkedIn_large p (i + 5) (by omega)] at hi
      simp at hi

theorem Validate_error_cases (pc : PipelineConfig) (msg : String)
    (herr : pc.Validate = .error msg) :
    (∃ p i e, pc.Pipelines = some p ∧
      (∀ j, j < i → ∀ x ∈ p.checkedIn j, x.2.WellFormed) ∧
      e ∈ p.checkedIn i ∧ ¬ e.2.WellFormed ∧ pc.validatePipeline e.1 e.2 = .error msg) ∨
    ((∀ p, pc.Pipelines = some p → ∀ i, ∀ e ∈ p.checkedIn i, e.2.WellFormed) ∧
      msg = "no pipelines defined") := by
  cases hp : pc.Pipelines with
  | none =>
    right
    rw [Validate_nil pc hp] at herr
    refine ⟨fun p hp' => (by cases hp'), (Except.error.inj herr).symm⟩
  | some p =>
    by_cases hex : ∃ i, ∃ e ∈ p.checkedIn i, ¬ e.2.WellFormed
    · left
      classical
      have hpre : ∀ j, j < Nat.find hex → ∀ x ∈ p.checkedIn j, x.2.WellFormed := by
        intro j hj x hx
        by_contra hx'
        exact Nat.find_min hex hj ⟨x, hx, hx'⟩
      obtain ⟨e, he, hne, hval, -⟩ := Validate_earliest pc p (Nat.find hex) hp hpre
        (Nat.find_spec hex)
      exact ⟨p, Nat.find hex, e, rfl, hpre, he, hne, hval.symm.trans herr⟩
    · right
      have hall : ∀ i, ∀ e ∈ p.checkedIn i, e.2.WellFormed := by
        intro i e he
        by_contra hne
        exact hex ⟨i, e, he, hne⟩
      refine ⟨fun p' hp' => (by cases hp'; exact hall), ?_⟩
      have hok : pc.rangeValidate "" p.checked = .ok () := by
        rw [rangeValidate_ok_iff]
        intro e he
        obtain ⟨i, hi⟩ := (mem_checked_iff p e).1 he
        exact hall i e hi
      rw [Validate_eq_checked pc p hp, hok] at herr
      by_cases hz : p.Default.len = 0 ∧ p.Branches.len = 0 ∧ p.PullRequests.len = 0 ∧
          p.Custom.len = 0 ∧ p.Tags.len = 0
      · simp only [hz, and_self, if_true] at herr
        exact (Except.error.inj herr).symm
      · simp only [hz, if_false] at herr
        cases herr

theorem no_invalid_reorder (pc pc' : PipelineConfig) (h : pc.Reorder pc')
    (hall : ∀ p, pc.Pipelines = some p → ∀ i, ∀ e ∈ p.checkedIn i, e.2.WellFormed) :
    ∀ p', pc'.Pipelines = some p' → ∀ i, ∀ e ∈ p'.checkedIn i, e.2.WellFormed := by
  intro p' hp' i e he
  rcases Reorder_pipelines pc pc' h with ⟨-, hn⟩ | ⟨p, q, hp, hq, hre⟩
  · rw [hn] at hp'
    cases hp'
  · rw [hq] at hp'
    cases hp'
    exact hall p hp i e ((checkedIn_perm p p' hre i).mem_iff.2 he)

theorem Validate_error_cases_reorder (pc pc' : PipelineConfig) (h : pc.Reorder pc')
    (msg : String) (herr : pc.Validate = .error msg) :
    (∃ p i e, pc.Pipelines = some p ∧
      (∀ j, j < i → ∀ x ∈ p.checkedIn j, x.2.WellFormed) ∧
      e ∈ p.checkedIn i ∧ ¬ e.2.WellFormed ∧ pc.validatePipeline e.1 e.2 = .error msg) ∨
    ((∀ p, pc.Pipelines = some p → ∀ i, ∀ e ∈ p.checkedIn i, e.2.WellFormed) ∧
      msg = "no pipelines defined" ∧ pc'.Validate = .error "no pipelines defined") := by
  rcases Validate_error_cases pc msg herr with hl | ⟨hall, hmsg⟩
  · exact Or.inl hl
  · right
    refine ⟨hall, hmsg, ?_⟩
    have hne : pc'.Validate ≠ .ok () := by
      intro hok
      rw [(Validate_ok_reorder pc pc' h).2 hok] at herr
      cases herr
    obtain ⟨msg', herr'⟩ := (Except_error_iff_ne_ok _).2 hne
    rcases Validate_error_cases pc' msg' herr' with ⟨p', i, e, hp', -, he, hbad, -⟩ | ⟨-, hmsg'⟩
    · exact absurd (no_invalid_reorder pc pc' h hall p' hp' i e he) hbad
    · rw [herr', hmsg']

/-- C27, as stated, fails: the document `pipelines: {}` is rejected with "no
pipelines defined" although none of its channels holds an entry, let alone an
invalid one, and so is a document without a pipelines section. -/
theorem Validate_error_without_invalid_entry :
    emptyGroup.Validate = .error "no pipelines defined" ∧
    (∀ p, emptyGroup.Pipelines = some p → ∀ i, p.checkedIn i = []) ∧
    (mkConfig none).Validate = .error "no pipelines defined" ∧
    (mkConfig none).Pipelines = none := by
  refine ⟨rfl, ?_, rfl, rfl⟩
  intro p hp i
  have hp' : p = ⟨none, none, none, none, none⟩ := by
    simp [emptyGroup, mkConfig] at hp
    exact hp.symm
  subst hp'
  match i with
  | 0 => rfl
  | 1 => rfl
  | 2 => rfl
  | 3 => rfl
  | 4 => rfl
  | i + 5 => rfl

/-- C27, amended: for two enumerations of one document, `Validate` returns an
error on one exactly when it returns an error on the other. When a channel
holds an invalid pipeline, the error is, under either enumeration, the error
of an invalid entry of the earliest such channel in the order default,
branches, pull-requests, custom, tags; and every error is of that kind, or is
"no pipelines defined", returned under both enumerations, when no channel
holds an invalid pipeline. -/
theorem Validate_reject_order_independent (pc pc' : PipelineConfig) (h : pc.Reorder pc') :
    ((∃ msg, pc.Validate = .error msg) ↔ (∃ msg, pc'.Validate = .error msg)) ∧
    (∀ p p' i, pc.Pipelines = some p → pc'.Pipelines = some p' →
      (∀ j, j < i → ∀ e ∈ p.checkedIn j, e.2.WellFormed) →
      (∃ e ∈ p.checkedIn i, ¬ e.2.WellFormed) →
      (∃ e ∈ p.checkedIn i, ¬ e.2.WellFormed ∧
        pc.Validate = pc.validatePipeline e.1 e.2 ∧ ∃ msg, pc.Validate = .error msg) ∧
      (∃ e ∈ p.checkedIn i, ¬ e.2.WellFormed ∧
        pc'.Validate = pc'.validatePipeline e.1 e.2 ∧ ∃ msg, pc'.Validate = .error msg)) ∧
    (∀ msg, pc.Validate = .error msg →
      (∃ p i e, pc.Pipelines = some p ∧
        (∀ j, j < i → ∀ x ∈ p.checkedIn j, x.2.WellFormed) ∧
        e ∈ p.checkedIn i ∧ ¬ e.2.WellFormed ∧ pc.validatePipeline e.1 e.2 = .error msg) ∨
      ((∀ p, pc.Pipelines = some p → ∀ i, ∀ e ∈ p.checkedIn i, e.2.WellFormed) ∧
        msg = "no pipelines defined" ∧ pc'.Validate = .error "no pipelines defined")) ∧
    (∀ msg, pc'.Validate = .error msg →
      (∃ p' i e, pc'.Pipelines = some p' ∧
        (∀ j, j < i → ∀ x ∈ p'.checkedIn j, x.2.WellFormed) ∧
        e ∈ p'.checkedIn i ∧ ¬ e.2.WellFormed ∧ pc'.validatePipeline e.1 e.2 = .error msg) ∨
      ((∀ p', pc'.Pipelines = some p' → ∀ i, ∀ e ∈ p'.checkedIn i, e.2.WellFormed) ∧
        msg = "no pipelines defined" ∧ pc.Validate = .error "no pipelines defined")) := by
  refine ⟨?_, ?_, Validate_error_cases_reorder pc pc' h,
    Validate_error_cases_reorder pc' pc (Reorder_symm pc pc' h)⟩
  · rw [Except_error_iff_ne_ok, Except_error_iff_ne_ok]
    exact not_congr (Validate_ok_reorder pc pc' h)
  · intro p p' i hp hp' hpre hbad
    refine ⟨Validate_earliest pc p i hp hpre hbad, ?_⟩
    have hre : p.Reorder p' := by
      obtain ⟨-, -, -, -, hm⟩ := h
      simp only [hp, hp'] at hm
      exact hm
    have hperm := checkedIn_perm p p' hre
    obtain ⟨e, he, hne, hval, hmsg⟩ := Validate_earliest pc' p' i hp'
      (fun j hj e he => hpre j hj e ((hperm j).mem_iff.2 he))
      (by
        obtain ⟨e, he, hne⟩ := hbad
        exact ⟨e, (hperm i).mem_iff.1 he, hne⟩)
    exact ⟨e, (hperm i).mem_iff.2 he, hne, hval, hmsg⟩

/-- The instance of C27 (amended) for the two enumerations `orderAB` and
`orderBA` of a branches map with two invalid entries: both are rejected, each
with the error of one of the two entries. -/
theorem Validate_reject_order_independent_witness :
    (∃ msg, orderAB.Validate = .error msg) ∧ (∃ msg, orderBA.Validate = .error msg) ∧
    (∃ e ∈ [("branches.a", (some [] : Pipeline)), ("branches.b", some [])],
      orderBA.Validate = orderBA.validatePipeline e.1 e.2) := by
  have hre : orderAB.Reorder orderBA :=
    ⟨rfl, rfl, rfl, rfl, rfl, ⟨rfl, List.Perm.swap _ _ _⟩, ⟨rfl, List.Perm.refl _⟩,
      ⟨rfl, List.Perm.refl _⟩, ⟨rfl, List.Perm.refl _⟩⟩
  have h := Validate_reject_order_independent orderAB orderBA hre
  have h1 : ∃ msg, orderAB.Validate = .error msg := ⟨_, rfl⟩
  obtain ⟨-, e, he, -, hval, -⟩ := h.2.1 _ _ 1 rfl rfl
    (by
      intro j hj e he
      have hj0 : j = 0 := by omega
      subst hj0
      simp [Pipelines.checkedIn] at he)
    ⟨("branches.a", some []), by decide, by decide⟩
  exact ⟨h1, h.1.1 h1, e, he, hval⟩

/-! ## What the selectors return on a validated document -/

theorem goIndex_ok_mem {α : Type} (l : List α) (i : Int) (x : α) (h : goIndex l i = .ok x) :
    x ∈ l := by
  unfold goIndex at h
  by_cases hneg : i < 0
  · rw [if_pos hneg] at h
    cases h
  · rw [if_neg hneg] at h
    cases hget : l[i.toNat]? with
    | none =>
      rw [hget] at h
      cases h
    | some y =>
      rw [hget] at h
      cases h
      exact List.getElem?_mem hget

theorem GetCurrentStep_some_mem (ec : ExecutionContext) (pc : PipelineConfig) (st : Step)
    (hc : ec.PipelineConfig = some pc) (h : ec.GetCurrentStep = .ok (some st)) :
    ∃ pl sw, pc.GetDefaultPipeline = (some pl, true) ∧ sw ∈ pl.steps ∧ sw.Step = st := by
  rcases GetDefaultPipeline_cases pc with hg | ⟨pl, hg⟩
  · rw [GetCurrentStep_not_found ec pc hc hg] at h
    cases h
  · by_cases hle : (pl.len : Int) ≤ ec.CurrentStep
    · rw [GetCurrentStep_past_end ec pc pl hc hg hle] at h
      cases h
    · by_cases hneg : ec.CurrentStep < 0
      · rw [GetCurrentStep_negative ec pc pl hc hg hneg] at h
        cases h
      · obtain ⟨sw, hsw, hget⟩ := GetCurrentStep_in_range ec pc pl hc hg (by omega) (by omega)
        rw [hget] at h
        cases h
        exact ⟨pl, sw, hg, List.getElem?_mem hsw, rfl⟩

/-- C28: on a document that passes `Validate`, every pipeline a selector
reports as found has at least one step and only steps with a script, be it
the default pipeline or the pipeline of a branch; hence every step that
`GetCurrentStep` returns on a context over that document, a fresh one
included, has a script that is not empty. -/
theorem selectors_return_well_formed (pc : PipelineConfig) (hv : pc.Validate = .ok ()) :
    (∀ pl, pc.GetDefaultPipeline = (some pl, true) → pl.WellFormed) ∧
    (∀ b pl, pc.GetBranchPipeline b = (some pl, true) → pl.WellFormed) ∧
    (∀ (ec : ExecutionContext) (st : Step), ec.PipelineConfig = some pc →
      ec.GetCurrentStep = .ok (some st) → st.Script ≠ []) ∧
    (∀ (w : String) (now : Time) (st : Step),
      (NewExecutionContext (some pc) w now).GetCurrentStep = .ok (some st) →
      st.Script ≠ []) := by
  obtain ⟨p, hp, -, hdef, hB, -, -, -, -⟩ := (Validate_accepts_iff pc).1 hv
  have h1 : ∀ pl, pc.GetDefaultPipeline = (some pl, true) → pl.WellFormed := by
    intro pl hg
    obtain ⟨p', hp', hne, hg'⟩ := GetDefaultPipeline_found pc (by rw [hg])
    rw [hp] at hp'
    cases hp'
    rw [hg] at hg'
    cases hg'
    exact hdef (Nat.pos_of_ne_zero hne)
  have h3 : ∀ (ec : ExecutionContext) (st : Step), ec.PipelineConfig = some pc →
      ec.GetCurrentStep = .ok (some st) → st.Script ≠ [] := by
    intro ec st hc hget
    obtain ⟨pl, sw, hg, hmem, hst⟩ := GetCurrentStep_some_mem ec pc st hc hget
    rw [← hst]
    exact (h1 pl hg).2 sw hmem
  refine ⟨h1, ?_, h3, fun w now st => h3 _ st rfl⟩
  intro b pl hb
  unfold PipelineConfig.GetBranchPipeline at hb
  simp only [hp] at hb
  by_cases hn : p.Branches.isNone = true
  · simp [hn] at hb
  · cases hl : p.Branches.lookup b with
    | none => simp [hn, hl] at hb
    | some pl' =>
      simp only [hn, hl] at hb
      have hpl : pl' = pl := by
        simpa using hb
      rw [← hpl]
      exact hB (b, pl') (mem_of_lookup_eq_some p.Branches b pl' hl)

/-- The instance of C28 for the two-step document `twoSteps`: the step a fresh
context returns has a script. -/
theorem selectors_return_well_formed_witness :
    ∃ st, (NewExecutionContext (some twoSteps) "" 0).GetCurrentStep = .ok (some st) ∧
      st.Script ≠ [] :=
  ⟨(mkStep ["build"]).Step, rfl,
    (selectors_return_well_formed twoSteps (by decide)).2.2.2 "" 0 _ rfl⟩

/-! ## Runner configuration -/

theorem stepTypesLoop_ok (l : List (String × StepType))
    (h : RunnerConfig.stepTypesLoop l = .ok ()) :
    ∀ e ∈ l, e.2.Image ≠ "" ∧ 0 < e.2.Timeout := by
  induction l with
  | nil =>
    intro e he
    simp at he
  | cons a l ih =>
    obtain ⟨name, st⟩ := a
    unfold RunnerConfig.stepTypesLoop at h
    by_cases h1 : st.Image = ""
    · simp [h1] at h
    · by_cases h2 : st.Timeout ≤ 0
      · simp [h1, h2] at h
      · simp only [h1, h2, if_false] at h
        intro e he
        rcases List.mem_cons.1 he with he1 | he1
        · rw [he1]
          exact ⟨h1, not_le.1 h2⟩
        · exact ih h e he1

theorem GoMap_mem_of_lookup {V : Type} (m : GoMap V) (k : String) (v : V)
    (h : m.lookup k = some v) : (k, v) ∈ m.entries := by
  unfold GoMap.lookup at h
  simp only [Option.map_eq_some'] at h
  obtain ⟨⟨k', v'⟩, hf, hv⟩ := h
  have hk := List.find?_some hf
  simp only [beq_iff_eq] at hk hv
  subst hk
  subst hv
  exact List.mem_of_find?_eq_some hf

/-- C30: on a runner configuration that passes `Validate`, the step type
`GetDefaultStepType` returns has an image that is not empty and a timeout
above zero, whether it is the `default` entry of `StepTypes` or is built from
`Defaults` for want of that entry. -/
theorem GetDefaultStepType_valid (rc : RunnerConfig) (hv : rc.Validate = .ok ()) :
    rc.GetDefaultStepType.Image ≠ "" ∧ 0 < rc.GetDefaultStepType.Timeout ∧
    (∀ st, rc.StepTypes.lookup "default" = some st → rc.GetDefaultStepType = st) ∧
    (rc.StepTypes.lookup "default" = none →
      rc.GetDefaultStepType.Image = rc.Defaults.Image ∧
      rc.GetDefaultStepType.Timeout = rc.Defaults.Timeout) := by
  unfold RunnerConfig.Validate at hv
  by_cases h1 : rc.Version = ""
  · simp [h1] at hv
  · by_cases h2 : rc.Defaults.Image = ""
    · simp [h1, h2] at hv
    · by_cases h3 : rc.Defaults.Timeout ≤ 0
      · simp [h1, h2, h3] at hv
      · simp only [h1, h2, h3, if_false] at hv
        have hall := stepTypesLoop_ok _ hv
        cases hl : rc.StepTypes.lookup "default" with
        | none =>
          have hg : rc.GetDefaultStepType =
              { Image := rc.Defaults.Image, Environment := none, Volumes := [], Ports := [],
                Timeout := rc.Defaults.Timeout } := by
            simp only [RunnerConfig.GetDefaultStepType, hl]
          rw [hg]
          refine ⟨h2, by show 0 < rc.Defaults.Timeout; omega, ?_, fun _ => ⟨rfl, rfl⟩⟩
          intro st hst
          cases hst
        | some st =>
          have hg : rc.GetDefaultStepType = st := by
            simp only [RunnerConfig.GetDefaultStepType, hl]
          have hmem := hall ("default", st) (GoMap_mem_of_lookup rc.StepTypes "default" st hl)
          rw [hg]
          refine ⟨hmem.1, hmem.2, ?_, ?_⟩
          · intro st' hst'
            cases hst'
            rfl
          · intro hnone
            cases hnone

/-- The instance of C30 for the configuration `plainRunner`, which has no
`default` step type: the result is built from `Defaults`. -/
theorem GetDefaultStepType_valid_witness :
    plainRunner.GetDefaultStepType.Image ≠ "" ∧ 0 < plainRunner.GetDefaultStepType.Timeout ∧
    plainRunner.GetDefaultStepType.Image = "ubuntu:20.04" :=
  ⟨(GetDefaultStepType_valid plainRunner (by decide)).1,
   (GetDefaultStepType_valid plainRunner (by decide)).2.1,
   ((GetDefaultStepType_valid plainRunner (by decide)).2.2.2 (by decide)).1.trans rfl⟩

/-- C31: the built-in configuration of `NewDefaultRunnerConfig` passes
`RunnerConfig.Validate`: its `Version` and `Defaults.Image` are not empty,
`Defaults.Timeout` is positive, and every entry of `StepTypes` has an image
that is not empty and a positive timeout. -/
theorem NewDefaultRunnerConfig_valid :
    NewDefaultRunnerConfig.Validate = .ok () ∧
    NewDefaultRunnerConfig.Version ≠ "" ∧
    NewDefaultRunnerConfig.Defaults.Image ≠ "" ∧
    0 < NewDefaultRunnerConfig.Defaults.Timeout ∧
    (∀ e ∈ NewDefaultRunnerConfig.StepTypes.entries, e.2.Image ≠ "" ∧ 0 < e.2.Timeout) := by
  have hv : NewDefaultRunnerConfig.Validate = .ok () := by decide
  refine ⟨hv, by decide, by decide, by decide, ?_⟩
  have hloop : RunnerConfig.stepTypesLoop NewDefaultRunnerConfig.StepTypes.entries = .ok () := by
    decide
  exact stepTypesLoop_ok _ hloop

end Models
